import Mathlib

/-!
Verification of the strand-topology model and the RNA helix-geometry engine of
the oxdna-viewer sources (`src/ts/model/strand.ts`, `src/dist/model/RNA.js`).

Part 1 embeds the doubly-linked monomer chain and the `Strand` operations
(`updateEnds`, `isCircular`, `getLength`, `forEach`/`map`, `getSequence`,
`getMonomers`, `setFrom`, `search`, `createBasicElementTyped`,
`translateStrand`).  Elements are identified by their index into a list; the
JS `null` link is `Option.none`.  Loops that the source bounds only by the
chain structure are given an explicit fuel argument; a result of `none` means
the fuel ran out, so `some` results certify termination.

Part 2 embeds the geometry engine `RNANucleotide.extendStrand` over an
abstract linearly ordered field together with a record of scalar operations
(`pi`, `sqrt`, `sin`, `cos`, `acos`), so the very same definition can be
instantiated at `ℝ` (for the numerical claims) and at `ℚ` (for executable
witnesses).  The vector/quaternion operations are modelled from the spec
(section 3 Data Model) since the THREE.js library is an external collaborator;
the formulas are the standard THREE.js ones.
-/

/-- A monomer element (`BasicElement`): 3-prime and 5-prime neighbour links,
a type symbol, the strand back-reference and the stable slot index `sid`.
From `src/ts/model/strand.ts` and the spec data model. -/
structure Elem where
  n3 : Option Nat
  n5 : Option Nat
  type : Char
  strand : Nat
  sid : Nat
deriving DecidableEq

/-- A system of elements; an element id is an index into this list. -/
abbrev Elems := List Elem

/-- The 3-prime link of element `i` (JS `e.n3`, `null` becomes `none`). -/
def n3 (E : Elems) (i : Nat) : Option Nat := (E[i]?).bind Elem.n3

/-- The 5-prime link of element `i` (JS `e.n5`). -/
def n5 (E : Elems) (i : Nat) : Option Nat := (E[i]?).bind Elem.n5

/-- The type symbol of element `i` (JS `e.type`); `none` if out of range. -/
def typeOf (E : Elems) (i : Nat) : Option Char := (E[i]?).map Elem.type

/-- The strand back-reference of element `i` (JS `e.strand`). -/
def strandOf (E : Elems) (i : Nat) : Option Nat := (E[i]?).map Elem.strand

/-- The slot index of element `i` (JS `e.sid`). -/
def sidOf (E : Elems) (i : Nat) : Option Nat := (E[i]?).map Elem.sid

/-- First loop of `Strand.updateEnds` (strand.ts lines 69-77):
`while (end3.n3 && end3.n3 != end5) { end3 = end3.n3; if (end3 == start) { end5 = end3.n3; return } }`.
`Sum.inl` is the early `return` from the cycle branch, `Sum.inr` falls through
to the second loop.  `none` means the fuel ran out (or the cycle branch read a
missing link, which cannot happen in an actual run because `end3 == start`
implies `start.n3` was present on the first iteration). -/
def endsLoop3 (E : Elems) (start : Nat) :
    Nat → Nat → Nat → Option (Sum (Nat × Nat) (Nat × Nat))
  | 0, _, _ => none
  | fuel+1, e3, e5 =>
    match n3 E e3 with
    | none => some (Sum.inr (e3, e5))
    | some v =>
      if v = e5 then some (Sum.inr (e3, e5))
      else if v = start then
        match n3 E v with
        | some w => some (Sum.inl (v, w))
        | none => none
      else endsLoop3 E start fuel v e5

/-- Second loop of `Strand.updateEnds` (strand.ts lines 78-86):
`while (end5.n5 && end3.n5 != end3) { end5 = end5.n5; if (end5 == start) { end3 = end5.n5; return } }`.
Note the source's guard compares `end3.n5` with `end3` (not `end5.n5` with
`end3`); it is translated exactly as written. -/
def endsLoop5 (E : Elems) (start : Nat) :
    Nat → Nat → Nat → Option (Nat × Nat)
  | 0, _, _ => none
  | fuel+1, e3, e5 =>
    match n5 E e5 with
    | none => some (e3, e5)
    | some v =>
      if n5 E e3 = some e3 then some (e3, e5)
      else if v = start then
        match n5 E v with
        | some w => some (w, v)
        | none => none
      else endsLoop5 E start fuel e3 v

/-- `Strand.updateEnds` (strand.ts lines 68-87): run the 3-prime-advance loop
from `end3` and then the 5-prime-advance loop from the (possibly unchanged)
`end5`; an early return from either cycle branch short-circuits.  The result
is the final `(end3, end5)` pair; `none` means fuel exhaustion. -/
def updateEnds (E : Elems) (fuel : Nat) (e3 e5 : Nat) : Option (Nat × Nat) :=
  match endsLoop3 E e3 fuel e3 e5 with
  | none => none
  | some (Sum.inl r) => some r
  | some (Sum.inr (a, b)) => endsLoop5 E b fuel a b

/-- `Strand.isCircular` (strand.ts line 37-39):
`end3.n3 != null && end3.n3 == end5`. -/
def isCircular (E : Elems) (e3 e5 : Nat) : Bool :=
  match n3 E e3 with
  | none => false
  | some v => v = e5

/-- Loop of `Strand.getLength` (strand.ts lines 49-58):
`let e = end3; let i = 0; while (e) { e = e.n5; i++; if (e === end3) break }; return i`. -/
def lenLoop (E : Elems) (e3 : Nat) : Nat → Option Nat → Nat → Option Nat
  | 0, _, _ => none
  | fuel+1, e, i =>
    match e with
    | none => some i
    | some x =>
      let e2 := n5 E x
      if e2 = some e3 then some (i+1) else lenLoop E e3 fuel e2 (i+1)

/-- `Strand.getLength`: count elements walking 5-prime links from `end3`. -/
def getLength (E : Elems) (e3 : Nat) (fuel : Nat) : Option Nat :=
  lenLoop E e3 fuel (some e3) 0

/-- Loop of `Strand.forEach` (strand.ts lines 103-113) collecting the visited
element ids: `while (e) { visit e; e = nxt e; if (e === start) break }`.
`nxt` selects the link (`n5` when walking in reverse, `n3` otherwise). -/
def travLoop (E : Elems) (nxt : Elems → Nat → Option Nat) (start : Nat) :
    Nat → Option Nat → Option (List Nat)
  | 0, _ => none
  | fuel+1, e =>
    match e with
    | none => some []
    | some x =>
      let e2 := nxt E x
      if e2 = some start then some [x]
      else (travLoop E nxt start fuel e2).map (fun l => x :: l)

/-- The raw traversal of `Strand.forEach`: start from `end3` walking `n5`
links when `reverse` is true, else from `end5` walking `n3` links, and stop
on a missing link or on returning to the start. -/
def forEachIds (E : Elems) (e3 e5 : Nat) (reverse : Bool) (fuel : Nat) :
    Option (List Nat) :=
  let start := if reverse then e3 else e5
  travLoop E (fun E x => if reverse then n5 E x else n3 E x) start fuel (some start)

/-- The strand family variants of strand.ts: `NucleicAcidStrand`, `Peptide`
and `Generic`. -/
inductive Family | na | peptide | generic
deriving DecidableEq

/-- Dynamic dispatch of `this.forEach`: `Peptide.forEach` and
`Generic.forEach` call `super.forEach(cb, !reverse, cond)` (strand.ts lines
342-344 and 428-430); `NucleicAcidStrand` inherits the base traversal. -/
def forEachF (fam : Family) (E : Elems) (e3 e5 : Nat) (reverse : Bool)
    (fuel : Nat) : Option (List Nat) :=
  match fam with
  | Family.na => forEachIds E e3 e5 reverse fuel
  | _ => forEachIds E e3 e5 (!reverse) fuel

/-- `Strand.map` with an explicit `reverse` argument: the base class body
calls `this.forEach(cb, reverse)` (dynamically dispatched), and the Peptide
and Generic overrides first flip the flag (`super.map(cb, !reverse)`). -/
def mapIdsWith (fam : Family) (E : Elems) (e3 e5 : Nat) (reverse : Bool)
    (fuel : Nat) : Option (List Nat) :=
  match fam with
  | Family.na => forEachF fam E e3 e5 reverse fuel
  | _ => forEachF fam E e3 e5 (!reverse) fuel

/-- `Strand.map` invoked with the `reverse` argument omitted (JS
`undefined`): the base body passes `undefined` (falsy) to `this.forEach`,
while the Peptide and Generic overrides pass `!undefined`, i.e. `true`. -/
def mapIdsDefault (fam : Family) (E : Elems) (e3 e5 : Nat) (fuel : Nat) :
    Option (List Nat) :=
  match fam with
  | Family.na => forEachF fam E e3 e5 false fuel
  | _ => forEachF fam E e3 e5 true fuel

/-- `Strand.getSequence` (strand.ts lines 45-47):
`this.map(e => e.type).join('')`, with `this.map` dynamically dispatched and
the `reverse` argument omitted.  The join of single-character symbols is the
list of types of the visited elements. -/
def getSequence (fam : Family) (E : Elems) (e3 e5 : Nat) (fuel : Nat) :
    Option (List Char) :=
  (mapIdsDefault fam E e3 e5 fuel).map (fun ids => ids.filterMap (typeOf E))

/-- `Strand.getMonomers` (strand.ts lines 93-95): `this.map(e => e, reverse)`;
`Peptide.getMonomers`/`Generic.getMonomers` call `super.getMonomers(!reverse)`
(strand.ts lines 338-340, 424-426). -/
def getMonomers (fam : Family) (E : Elems) (e3 e5 : Nat) (reverse : Bool)
    (fuel : Nat) : Option (List Nat) :=
  match fam with
  | Family.na => mapIdsWith fam E e3 e5 reverse fuel
  | _ => mapIdsWith fam E e3 e5 (!reverse) fuel

/-- `Strand.getMonomers()` with the `reverse` argument omitted: the base body
receives `undefined` for `NucleicAcidStrand` and `!undefined = true` from the
Peptide/Generic override. -/
def getMonomersDefault (fam : Family) (E : Elems) (e3 e5 : Nat) (fuel : Nat) :
    Option (List Nat) :=
  match fam with
  | Family.na => mapIdsDefault fam E e3 e5 fuel
  | _ => mapIdsWith fam E e3 e5 true fuel

/-- Set the strand back-reference of element `i` (JS `e.strand = this`). -/
def setStrandOf (E : Elems) (i sid : Nat) : Elems :=
  match E[i]? with
  | none => E
  | some el => E.set i { el with strand := sid }

/-- Assign the strand back-reference of every listed element. -/
def setStrandRefs (E : Elems) (sid : Nat) (ids : List Nat) : Elems :=
  ids.foldl (fun acc i => setStrandOf acc i sid) E

/-- `Strand.setFrom` (strand.ts lines 25-35).  The result pairs the outcome
(`Except.error` models the thrown `Error`, raised before any mutation) with
the post state `(end3, end5, elements)`; on the error path the state is the
unchanged input state.  `none` means the fuel of `updateEnds`/`forEach` ran
out.  The back-reference pass uses `this.forEach` with no `reverse` argument,
dynamically dispatched per family. -/
def setFrom (fam : Family) (E : Elems) (sid : Nat) (eOpt : Option Nat)
    (fuel : Nat) (prev3 prev5 : Option Nat) :
    Option (Except (List Char) Unit × (Option Nat × Option Nat × Elems)) :=
  match eOpt with
  | none => some (Except.error "Cannot set empty strand end".toList,
      (prev3, prev5, E))
  | some e =>
    match updateEnds E fuel e e with
    | none => none
    | some (e3, e5) =>
      match forEachF fam E e3 e5 false fuel with
      | none => none
      | some ids => some (Except.ok (), (some e3, some e5, setStrandRefs E sid ids))

/-- `Nucleotide.isType` is not part of the provided sources.  Modelled from
the spec: `search` matches runs "whose types exactly match pattern
character-by-character" (spec 4.2), so `isType(c)` is type-symbol equality;
comparison with a missing pattern character (JS `undefined`) is false. -/
def isTypeAt (E : Elems) (i : Nat) (c : Option Char) : Bool :=
  match typeOf E i, c with
  | some t, some c => t = c
  | _, _ => false

/-- Body of the `forEach` callback in `NucleicAcidStrand.search` (strand.ts
lines 246-263), acting on the state `(matching, matchings)`. -/
def searchStep (E : Elems) (seq : List Char) (st : List Nat × List (List Nat))
    (x : Nat) : List Nat × List (List Nat) :=
  let m := st.1
  let ms := st.2
  let mms := if m.length = seq.length then ([], ms ++ [m]) else (m, ms)
  let m := mms.1
  let ms := mms.2
  if isTypeAt E x seq[m.length]? then (m ++ [x], ms)
  else
    if isTypeAt E x seq[(0 : Nat)]? then ([x], ms)
    else ([], ms)

/-- `NucleicAcidStrand.search` (strand.ts lines 243-270): fold the step over
the natural (5-prime to 3-prime) traversal, then push a final complete match.
Returns the list of matched runs of element ids. -/
def search (E : Elems) (e3 e5 : Nat) (fuel : Nat) (seq : List Char) :
    Option (List (List Nat)) :=
  (forEachIds E e3 e5 false fuel).map (fun ids =>
    let st := ids.foldl (searchStep E seq) ([], [])
    if st.1.length = seq.length then st.2 ++ [st.1] else st.2)

/-- The two nucleotide classes a `NucleicAcidStrand` can create. -/
inductive NucKind | RNA | DNA
deriving DecidableEq

/-- The `notify` message of `createBasicElementTyped` (strand.ts line 216). -/
def notifyMsg (ty : List Char) : List Char :=
  ty ++ " is not a recognized nucleic acid type, oxView only supports 'dna' or 'rna' at the moment.".toList

/-- ASCII lower-casing of JS `String.prototype.toLowerCase`. -/
def lowerStr (ty : List Char) : List Char := ty.map Char.toLower

/-- `NucleicAcidStrand.createBasicElementTyped` (strand.ts lines 210-219).
The result pairs the created element kind (`none` when the type symbol is
unsupported, modelling the bare `return`) with the list of messages sent to
the `notify` collaborator.  The function has no `throw` path and touches no
strand state, exactly as in the source. -/
def createBasicElementTyped (ty : List Char) : Option NucKind × List (List Char) :=
  if lowerStr ty = "rna".toList then (some NucKind.RNA, [])
  else if lowerStr ty = "dna".toList then (some NucKind.DNA, [])
  else (none, [notifyMsg ty])

/-- Canonical linear chain built over a list of type symbols: element `i`
has 3-prime neighbour `i+1` and 5-prime neighbour `i-1`, so `end3` of the
seeded strand is `n-1` and `end5` is `0`, and the natural traversal
(from `end5` along `n3`) visits `0, 1, ..., n-1`. -/
def linElem (ts : List Char) (i : Nat) : Elem :=
  { n3 := if i + 1 < ts.length then some (i+1) else none
    n5 := if i = 0 then none else some (i - 1)
    type := ts.getD i ' '
    strand := 0
    sid := i }

/-- Canonical linear chain over the given type symbols. -/
def lin (ts : List Char) : Elems := (List.range ts.length).map (linElem ts)

/-- Canonical pre-linked cycle of `K` elements: element `i` has 3-prime
neighbour `(i+1) % K` and 5-prime neighbour `(i+K-1) % K`. -/
def cyc (K : Nat) : Elems :=
  (List.range K).map (fun i =>
    { n3 := some ((i+1) % K)
      n5 := some ((i + K - 1) % K)
      type := 'N'
      strand := 0
      sid := i })

/-- Iterated 3-prime stepping: follow `k` 3-prime links from element `i`
(used to state "following 3-prime links from `end3` eventually returns to
`end5`"). -/
def n3Iter (E : Elems) : Nat → Nat → Option Nat
  | 0, i => some i
  | k+1, i => (n3 E i).bind (n3Iter E k)

/-! ## Part 2: vectors, quaternions and the helix geometry engine

THREE.js is an external collaborator of the sources; the vector and
quaternion operations below are modelled from the spec (section 3 Data
Model) using the standard THREE.js formulas (`normalize` divides by
`length() || 1`, `angleTo` clamps the cosine, `applyQuaternion` is the
`t = 2 q.xyz x v; v + q.w t + q.xyz x t` form, `setFromAxisAngle` uses the
half angle).  Scalars range over an abstract linearly ordered field plus a
record `SOps` of the transcendental operations, so that one and the same
embedding is instantiated at ℝ for the numerical claims and at ℚ for
executable witnesses. -/

/-- Three-component vector (spec: Vector3). -/
structure Vec3 (α : Type) where
  x : α
  y : α
  z : α
deriving DecidableEq

/-- The transcendental scalar operations used by `extendStrand`. -/
structure SOps (α : Type) where
  pi : α
  sqrt : α → α
  sin : α → α
  cos : α → α
  acos : α → α

section Geometry

variable {α : Type} [LinearOrderedField α] [DecidableEq α]

/-- Vector addition. -/
def vadd (a b : Vec3 α) : Vec3 α := ⟨a.x + b.x, a.y + b.y, a.z + b.z⟩

/-- Vector subtraction. -/
def vsub (a b : Vec3 α) : Vec3 α := ⟨a.x - b.x, a.y - b.y, a.z - b.z⟩

/-- Scalar multiple (THREE `multiplyScalar`). -/
def vscale (s : α) (a : Vec3 α) : Vec3 α := ⟨s * a.x, s * a.y, s * a.z⟩

/-- Dot product. -/
def vdot (a b : Vec3 α) : α := a.x * b.x + a.y * b.y + a.z * b.z

/-- Cross product. -/
def vcross (a b : Vec3 α) : Vec3 α :=
  ⟨a.y * b.z - a.z * b.y, a.z * b.x - a.x * b.z, a.x * b.y - a.y * b.x⟩

/-- Squared length. -/
def vlengthSq (a : Vec3 α) : α := vdot a a

/-- Length (THREE `length`). -/
def vlength (O : SOps α) (a : Vec3 α) : α := O.sqrt (vlengthSq a)

/-- THREE `normalize`: `divideScalar(length() || 1)`; the zero vector is
left unchanged. -/
def vnormalize (O : SOps α) (a : Vec3 α) : Vec3 α :=
  vscale (1 / (if vlength O a = 0 then 1 else vlength O a)) a

/-- THREE `MathUtils.clamp(t, -1, 1)`. -/
def clamp1 (t : α) : α := max (-1) (min 1 t)

/-- THREE `angleTo`: `acos(clamp(dot / sqrt(lenSq*lenSq), -1, 1))`, with
`pi/2` for a zero denominator. -/
def angleTo (O : SOps α) (a b : Vec3 α) : α :=
  let d := O.sqrt (vlengthSq a * vlengthSq b)
  if d = 0 then O.pi / 2 else O.acos (clamp1 (vdot a b / d))

/-- THREE `projectOnVector` of `a` onto `v`. -/
def projectOnVector (a v : Vec3 α) : Vec3 α :=
  if vlengthSq v = 0 then ⟨0, 0, 0⟩ else vscale (vdot v a / vlengthSq v) v

/-- THREE `projectOnPlane`: subtract the projection on the plane normal. -/
def projectOnPlane (a n : Vec3 α) : Vec3 α := vsub a (projectOnVector a n)

end Geometry

/-- Quaternion, stored as `(x, y, z, w)` like THREE. -/
structure Quat (α : Type) where
  x : α
  y : α
  z : α
  w : α

section Geometry2

variable {α : Type} [LinearOrderedField α] [DecidableEq α]

/-- THREE `Quaternion.setFromAxisAngle` (expects a normalized axis). -/
def quatAxisAngle (O : SOps α) (axis : Vec3 α) (angle : α) : Quat α :=
  ⟨axis.x * O.sin (angle / 2), axis.y * O.sin (angle / 2),
   axis.z * O.sin (angle / 2), O.cos (angle / 2)⟩

/-- THREE `Vector3.applyQuaternion`. -/
def applyQuat (q : Quat α) (v : Vec3 α) : Vec3 α :=
  let tx := 2 * (q.y * v.z - q.z * v.y)
  let ty := 2 * (q.z * v.x - q.x * v.z)
  let tz := 2 * (q.x * v.y - q.y * v.x)
  ⟨v.x + q.w * tx + (q.y * tz - q.z * ty),
   v.y + q.w * ty + (q.z * tx - q.x * tz),
   v.z + q.w * tz + (q.x * ty - q.y * tx)⟩

/-! `RNANucleotide.extendStrand` (RNA.js lines 35-175).  The numeric literals
of the source are written as exact rationals: `15.5 = 155/10`,
`2.35 = 235/100`, `0.3287 = 3287/10000`, `32.7 = 327/10`, `0.4 = 2/5`.
The input frame is the nucleotide's `(position, a1, a3)`; `oldA2` is
`a1 x a3` exactly as `getA2()` computes it (RNA.js lines 14-19). -/

/-- `inclination = 15.5 * PI / 180`. -/
def extIncl (O : SOps α) : α := 155/10 * O.pi / 180

/-- `bp_backbone_distance = 2`. -/
def extBpDist : α := 2

/-- `diameter = 2.35`. -/
def extDiameter : α := 235/100

/-- `base_base_distance = 0.3287` (the rise). -/
def extRise : α := 3287/10000

/-- `rot = 32.7 * PI / 180` (the twist). -/
def extTwist (O : SOps α) : α := 327/10 * O.pi / 180

/-- `cord = cos(inclination) * bp_backbone_distance`. -/
def extCord (O : SOps α) : α := O.cos (extIncl O) * extBpDist

/-- `center_to_cord = sqrt((diameter/2)^2 - (cord/2)^2)`. -/
def extCenterToCord (O : SOps α) : α :=
  O.sqrt ((extDiameter / 2) ^ 2 - (extCord O / 2) ^ 2)

/-- The helix direction before normalization: `oldA3` (negated when extending
from the 5-prime side) rotated about `oldA2 = a1 x a3` by `-inclination`. -/
def extDirRaw (O : SOps α) (a1 a3 : Vec3 α) (n5d : Bool) : Vec3 α :=
  applyQuat (quatAxisAngle O (vcross a1 a3) (-(extIncl O)))
    (if n5d then vscale (-1) a3 else a3)

/-- `dir`, the normalized helix axis. -/
def extDir (O : SOps α) (a1 a3 : Vec3 α) (n5d : Bool) : Vec3 α :=
  vnormalize O (extDirRaw O a1 a3 n5d)

/-- Template chord endpoint `r1 = (center_to_cord, cord/2, -(bp/2) sin incl)`. -/
def extR1T (O : SOps α) : Vec3 α :=
  ⟨extCenterToCord O, extCord O / 2, -(extBpDist / 2) * O.sin (extIncl O)⟩

/-- Template chord endpoint `r2 = (center_to_cord, -cord/2, (bp/2) sin incl)`. -/
def extR2T (O : SOps α) : Vec3 α :=
  ⟨extCenterToCord O, -(extCord O) / 2, extBpDist / 2 * O.sin (extIncl O)⟩

/-- `rotMat1`: rotation of the template so that the z-axis goes to `dir`
(axis `normalize(z x dir)`, angle `angleTo(z, dir)`). -/
def extQ1 (O : SOps α) (a1 a3 : Vec3 α) (n5d : Bool) : Quat α :=
  quatAxisAngle O (vnormalize O (vcross ⟨0, 0, 1⟩ (extDir O a1 a3 n5d)))
    (angleTo O ⟨0, 0, 1⟩ (extDir O a1 a3 n5d))

/-- `r1` after `rotMat1`. -/
def extR1A (O : SOps α) (a1 a3 : Vec3 α) (n5d : Bool) : Vec3 α :=
  applyQuat (extQ1 O a1 a3 n5d) (extR1T O)

/-- `r2` after `rotMat1`. -/
def extR2A (O : SOps α) (a1 a3 : Vec3 α) (n5d : Bool) : Vec3 α :=
  applyQuat (extQ1 O a1 a3 n5d) (extR2T O)

/-- The normalized chord direction `r1_to_r2` after `rotMat1`. -/
def extChordHat (O : SOps α) (a1 a3 : Vec3 α) (n5d : Bool) : Vec3 α :=
  vnormalize O (vsub (extR2A O a1 a3 n5d) (extR1A O a1 a3 n5d))

/-- `rotMat2`: rotation about `normalize(r1_to_r2 x oldA1)` by
`angleTo(r1_to_r2, oldA1)`. -/
def extQ2 (O : SOps α) (a1 a3 : Vec3 α) (n5d : Bool) : Quat α :=
  quatAxisAngle O (vnormalize O (vcross (extChordHat O a1 a3 n5d) a1))
    (angleTo O (extChordHat O a1 a3 n5d) a1)

/-- `r1` after both alignment rotations (the value entering the loop). -/
def extR1B (O : SOps α) (a1 a3 : Vec3 α) (n5d : Bool) : Vec3 α :=
  applyQuat (extQ2 O a1 a3 n5d) (extR1A O a1 a3 n5d)

/-- `r2` after both alignment rotations. -/
def extR2B (O : SOps α) (a1 a3 : Vec3 α) (n5d : Bool) : Vec3 α :=
  applyQuat (extQ2 O a1 a3 n5d) (extR2A O a1 a3 n5d)

/-- `start_pos = getPos() - r1 - 0.4 * oldA1`. -/
def extStartPos (O : SOps α) (p a1 a3 : Vec3 α) (n5d : Bool) : Vec3 α :=
  vsub (vsub p (extR1B O a1 a3 n5d)) (vscale (2/5) a1)

/-- The per-step rotation `R`: axis `dir`, angle `rot`. -/
def extStepQ (O : SOps α) (a1 a3 : Vec3 α) (n5d : Bool) : Quat α :=
  quatAxisAngle O (extDir O a1 a3 n5d) (extTwist O)

/-- One loop step on `(r1, r2)`:
`r.applyQuaternion(R).add(dir * base_base_distance)`. -/
def extAdvance (O : SOps α) (a1 a3 : Vec3 α) (n5d : Bool)
    (rr : Vec3 α × Vec3 α) : Vec3 α × Vec3 α :=
  (vadd (applyQuat (extStepQ O a1 a3 n5d) rr.1)
     (vscale extRise (extDir O a1 a3 n5d)),
   vadd (applyQuat (extStepQ O a1 a3 n5d) rr.2)
     (vscale extRise (extDir O a1 a3 n5d)))

/-- The `(r1, r2)` state after `i` advances from `(extR1B, extR2B)`;
loop iteration `i` (0-based) uses state `extRR (i+1)` since the source
advances before reading. -/
def extRR (O : SOps α) (a1 a3 : Vec3 α) (n5d : Bool) : Nat → Vec3 α × Vec3 α
  | 0 => (extR1B O a1 a3 n5d, extR2B O a1 a3 n5d)
  | i+1 => extAdvance O a1 a3 n5d (extRR O a1 a3 n5d i)

/-- An output tuple `[position, A1, A3]`. -/
abbrev Frame (α : Type) := Vec3 α × Vec3 α × Vec3 α

/-- The primary tuple of a loop iteration with chord state `rr`
(RNA.js lines 143-159). -/
def extPrimOf (O : SOps α) (p a1 a3 : Vec3 α) (n5d : Bool)
    (rr : Vec3 α × Vec3 α) : Frame α :=
  let d := vsub rr.2 rr.1
  let a1i := vnormalize O d
  let a1p := vnormalize O (projectOnPlane a1i (extDir O a1 a3 n5d))
  let a3i := vscale (-1) (vnormalize O
    (vadd (vscale (-(O.cos (extIncl O))) (extDir O a1 a3 n5d))
      (vscale (O.sin (extIncl O)) a1p)))
  (vadd (vadd rr.1 (vscale (2/5) a1i)) (extStartPos O p a1 a3 n5d), a1i, a3i)

/-- The complementary (base-paired, antiparallel) tuple of a loop iteration
(RNA.js lines 160-169): `a1` is the negated normalized chord and the
position is built from `r2`. -/
def extCompOf (O : SOps α) (p a1 a3 : Vec3 α) (n5d : Bool)
    (rr : Vec3 α × Vec3 α) : Frame α :=
  let d := vsub rr.2 rr.1
  let a1c := vscale (-1) (vnormalize O d)
  let a1p := vnormalize O (projectOnPlane a1c (extDir O a1 a3 n5d))
  let a3c := vscale (-1) (vnormalize O
    (vadd (vscale (O.cos (extIncl O)) (extDir O a1 a3 n5d))
      (vscale (O.sin (extIncl O)) a1p)))
  (vadd (vadd rr.2 (vscale (2/5) a1c)) (extStartPos O p a1 a3 n5d), a1c, a3c)

/-- Write one output slot (`out[j] = e`). -/
def setSlot (out : Nat → Option (Frame α)) (j : Nat) (e : Frame α) :
    Nat → Option (Frame α) :=
  fun k => if k = j then some e else out k

/-- One iteration of the generation loop (RNA.js lines 137-171): advance the
chord, store the primary tuple at `i` and, when `double`, the complementary
tuple at `len*2 - (i+1)`. -/
def extStep (O : SOps α) (p a1 a3 : Vec3 α) (n5d double : Bool) (len i : Nat)
    (st : (Vec3 α × Vec3 α) × (Nat → Option (Frame α))) :
    (Vec3 α × Vec3 α) × (Nat → Option (Frame α)) :=
  let rr := extAdvance O a1 a3 n5d st.1
  let out := setSlot st.2 i (extPrimOf O p a1 a3 n5d rr)
  let out2 := if double then setSlot out (len * 2 - (i+1)) (extCompOf O p a1 a3 n5d rr)
    else out
  (rr, out2)

/-- The generation loop, iterating `i = i0, i0+1, ...` for `k` steps. -/
def extLoop (O : SOps α) (p a1 a3 : Vec3 α) (n5d double : Bool) (len : Nat) :
    Nat → Nat → ((Vec3 α × Vec3 α) × (Nat → Option (Frame α))) →
      ((Vec3 α × Vec3 α) × (Nat → Option (Frame α)))
  | 0, _, st => st
  | k+1, i, st => extLoop O p a1 a3 n5d double len k (i+1)
      (extStep O p a1 a3 n5d double len i st)

/-- `RNANucleotide.extendStrand(len, direction, double)` from the frame
`(p, a1, a3)`: the output array, as a map from slot index to tuple (`none`
for never-written slots; `new Array(n)` starts with every slot empty). -/
def extendStrand (O : SOps α) (p a1 a3 : Vec3 α) (len : Nat)
    (n5d double : Bool) : Nat → Option (Frame α) :=
  (extLoop O p a1 a3 n5d double len len 0
    ((extR1B O a1 a3 n5d, extR2B O a1 a3 n5d), fun _ => none)).2

end Geometry2

/-- The real instantiation of the scalar operations. -/
noncomputable def realOps : SOps ℝ :=
  ⟨Real.pi, Real.sqrt, Real.sin, Real.cos, Real.arccos⟩

/-- A rational instantiation with placeholder transcendental functions, used
only to evaluate the structural (non-numeric) theorems on concrete inputs. -/
def ratOps : SOps ℚ := ⟨0, fun _ => 0, fun _ => 0, fun _ => 0, fun _ => 0⟩

/-! ## Translation models (claim C10) -/

section Translate

variable {α : Type} [LinearOrderedField α] [DecidableEq α]

/-- `BasicElement.translatePosition` is not part of the provided sources.
Modelled from the spec (4.2): nucleic-acid strands "mutate each element's
own position field directly", the position field being shifted rigidly by
the offset.  Element positions are kept in a table element-id to vector. -/
def translatePosition (tab : Nat → Vec3 α) (i : Nat) (amount : Vec3 α) :
    Nat → Vec3 α :=
  fun j => if j = i then vadd (tab i) amount else tab j

/-- Translate every listed element (the `monomers.forEach` of
`NucleicAcidStrand.translateStrand`). -/
def translateIds (amount : Vec3 α) (ids : List Nat) (tab : Nat → Vec3 α) :
    Nat → Vec3 α :=
  ids.foldl (fun t i => translatePosition t i amount) tab

/-- `NucleicAcidStrand.translateStrand` (strand.ts lines 225-236): translate
each monomer of `getMonomers(true)`; the trailing `callUpdates` render
notification is an out-of-scope collaborator with no effect on positions. -/
def translateStrand (E : Elems) (e3 e5 : Nat) (fuel : Nat) (amount : Vec3 α)
    (tab : Nat → Vec3 α) : Option (Nat → Vec3 α) :=
  (getMonomers Family.na E e3 e5 true fuel).map
    (fun ids => translateIds amount ids tab)

/-- The four flat coordinate tables of the peptide/generic families
(`nsOffsets`, `bbOffsets`, `bbconOffsets`, `cmOffsets`). -/
structure PepTables (α : Type) where
  ns : Nat → α
  bb : Nat → α
  bbcon : Nat → α
  cm : Nat → α

/-- One iteration body of `Peptide.translateStrand`: add the offset
components at slots `i`, `i+1`, `i+2` of all four tables. -/
def pepBump (st : PepTables α) (i : Nat) (a : Vec3 α) : PepTables α :=
  { ns := fun j => if j = i then st.ns j + a.x else if j = i+1 then st.ns j + a.y
      else if j = i+2 then st.ns j + a.z else st.ns j
    bb := fun j => if j = i then st.bb j + a.x else if j = i+1 then st.bb j + a.y
      else if j = i+2 then st.bb j + a.z else st.bb j
    bbcon := fun j => if j = i then st.bbcon j + a.x else if j = i+1 then st.bbcon j + a.y
      else if j = i+2 then st.bbcon j + a.z else st.bbcon j
    cm := fun j => if j = i then st.cm j + a.x else if j = i+1 then st.cm j + a.y
      else if j = i+2 then st.cm j + a.z else st.cm j }

/-- The `for (let i = lo*3; i <= hi*3; i += 3)` loop of
`Peptide.translateStrand`; the fuel `hi+1` always suffices. -/
def pepLoop (a : Vec3 α) (hi3 : Nat) : Nat → Nat → PepTables α → PepTables α
  | 0, _, st => st
  | fuel+1, i, st =>
    if i ≤ hi3 then pepLoop a hi3 fuel (i+3) (pepBump st i a) else st

/-- `Peptide.translateStrand` (strand.ts lines 293-324): bump every slot
block from `monomers[0].sid * 3` through `monomers[last].sid * 3`.  `none`
models the crash on an empty monomer list (`monomers[0]` undefined) or a
missing element. -/
def translateStrandPep (E : Elems) (e3 e5 : Nat) (fuel : Nat)
    (amount : Vec3 α) (st : PepTables α) : Option (PepTables α) :=
  (getMonomersDefault Family.peptide E e3 e5 fuel).bind (fun ms =>
    match ms.head?, ms.getLast? with
    | some a0, some aN =>
      match sidOf E a0, sidOf E aN with
      | some lo, some hi => some (pepLoop amount (hi * 3) (hi + 1) (lo * 3) st)
      | _, _ => none
    | _, _ => none)

end Translate

/-! Concrete evaluations of the embedding (sanity checks). -/

example : updateEnds (lin "ACGT".toList) 5 1 1 = some (3, 0) := by decide
example : updateEnds (cyc 5) 7 2 2 = some (1, 2) := by decide
example : updateEnds (cyc 1) 3 0 0 = some (0, 0) := by decide
example : getLength (cyc 5) 1 7 = some 5 := by decide
example : isCircular (cyc 5) 1 2 = true := by decide
example : forEachIds (lin "ACGT".toList) 3 0 false 9 = some [0, 1, 2, 3] := by decide
example : forEachIds (lin "ACGT".toList) 3 0 true 9 = some [3, 2, 1, 0] := by decide
example : forEachIds (cyc 4) 3 0 false 9 = some [0, 1, 2, 3] := by decide
example : search (lin "ACGT".toList) 3 0 9 "ACGT".toList = some [[0,1,2,3]] := by decide
example : search (lin "AACGTA".toList) 5 0 9 "CGT".toList = some [[2,3,4]] := by decide
example : search (lin "AAAB".toList) 3 0 9 "AAB".toList = some [] := by decide
example : getSequence Family.peptide (lin "AB".toList) 1 0 9 = some "AB".toList := by decide
example : getMonomersDefault Family.peptide (lin "AB".toList) 1 0 9 = some [1, 0] := by decide
example : getSequence Family.na (lin "AB".toList) 1 0 9 = some "AB".toList := by decide
example : getMonomersDefault Family.na (lin "AB".toList) 1 0 9 = some [0, 1] := by decide


/-! ### Link structure of the canonical chains -/

theorem range_getElem? (n i : Nat) :
    (List.range n)[i]? = if i < n then some i else none := by
  split
  · exact List.getElem?_range (by assumption)
  · exact List.getElem?_eq_none (by simpa using by omega)

theorem lin_getElem? (ts : List Char) (i : Nat) :
    (lin ts)[i]? = if i < ts.length then some (linElem ts i) else none := by
  simp only [lin, List.getElem?_map, range_getElem?]
  split <;> rfl

theorem cyc_getElem? (K i : Nat) :
    (cyc K)[i]? =
      if i < K then
        some { n3 := some ((i+1) % K), n5 := some ((i + K - 1) % K),
               type := 'N', strand := 0, sid := i }
      else none := by
  simp only [cyc, List.getElem?_map, range_getElem?]
  split <;> rfl

theorem n3_lin (ts : List Char) (i : Nat) (h : i < ts.length) :
    n3 (lin ts) i = if i + 1 < ts.length then some (i+1) else none := by
  simp [n3, lin_getElem?, h, linElem]

theorem n5_lin (ts : List Char) (i : Nat) (h : i < ts.length) :
    n5 (lin ts) i = if i = 0 then none else some (i - 1) := by
  simp [n5, lin_getElem?, h, linElem]

theorem n3_cyc (K i : Nat) (h : i < K) : n3 (cyc K) i = some ((i+1) % K) := by
  simp [n3, cyc_getElem?, h]

theorem n5_cyc (K i : Nat) (h : i < K) :
    n5 (cyc K) i = some ((i + K - 1) % K) := by
  simp [n5, cyc_getElem?, h]

theorem length_lin (ts : List Char) : (lin ts).length = ts.length := by
  simp [lin]

theorem length_cyc (K : Nat) : (cyc K).length = K := by
  simp [cyc]

/-! ### Modular arithmetic helpers for the cycle proofs -/

theorem add_mod_eq_self_iff {K p : Nat} (hp : p < K) (s : Nat) :
    (p + s) % K = p ↔ s % K = 0 := by
  have hK : 0 < K := Nat.lt_of_le_of_lt (Nat.zero_le p) hp
  have hsK : s % K < K := Nat.mod_lt _ hK
  have hrw : (p + s) % K = (p + s % K) % K := by
    conv_lhs => rw [show p + s = p + s % K + s / K * K by
      rw [Nat.add_assoc, Nat.add_comm (s % K), Nat.mul_comm, Nat.div_add_mod]]
    rw [Nat.add_mul_mod_self_right]
  rw [hrw]
  constructor
  · intro h
    by_cases hlt : p + s % K < K
    · rw [Nat.mod_eq_of_lt hlt] at h
      omega
    · rw [Nat.mod_eq_sub_mod (by omega), Nat.mod_eq_of_lt (by omega)] at h
      omega
  · intro h
    rw [h, Nat.add_zero]
    exact Nat.mod_eq_of_lt hp

theorem add_mod_inj {K p : Nat} (hp : p < K) {a b : Nat} (ha : a < K)
    (hb : b < K) : (p + a) % K = (p + b) % K ↔ a = b := by
  constructor
  · intro h
    have h2 : a % K = b % K := Nat.ModEq.add_left_cancel' p h
    rwa [Nat.mod_eq_of_lt ha, Nat.mod_eq_of_lt hb] at h2
  · intro h
    rw [h]

/-! ### Runs of updateEnds on the canonical chains -/

theorem endsLoop3_lin (ts : List Char) (p : Nat) :
    ∀ fuel j, p ≤ j → j < ts.length → ts.length - j ≤ fuel →
      endsLoop3 (lin ts) p fuel j p = some (Sum.inr (ts.length - 1, p)) := by
  intro fuel
  induction fuel with
  | zero => intro j h1 h2 h3; omega
  | succ fuel ih =>
    intro j h1 h2 h3
    by_cases hj : j + 1 < ts.length
    · have hn3 : n3 (lin ts) j = some (j+1) := by
        rw [n3_lin ts j h2]; simp [hj]
      have hne : ¬ (j + 1 = p) := by omega
      simp only [endsLoop3, hn3, if_neg hne]
      exact ih (j+1) (by omega) hj (by omega)
    · have hn3 : n3 (lin ts) j = none := by
        rw [n3_lin ts j h2]; simp [hj]
      simp only [endsLoop3, hn3]
      have hj2 : j = ts.length - 1 := by omega
      rw [hj2]

theorem endsLoop5_lin (ts : List Char) (p : Nat) :
    ∀ fuel j, j ≤ p → p < ts.length → j + 1 ≤ fuel →
      endsLoop5 (lin ts) p fuel (ts.length - 1) j =
        some (ts.length - 1, 0) := by
  intro fuel
  induction fuel with
  | zero => intro j h1 h2 h3; omega
  | succ fuel ih =>
    intro j h1 h2 h3
    by_cases hj : j = 0
    · have hn5 : n5 (lin ts) j = none := by
        rw [n5_lin ts j (by omega)]; simp [hj]
      simp only [endsLoop5, hn5]
      rw [hj]
    · have hn5 : n5 (lin ts) j = some (j - 1) := by
        rw [n5_lin ts j (by omega)]; simp [hj]
      have hend : n5 (lin ts) (ts.length - 1) ≠ some (ts.length - 1) := by
        rw [n5_lin ts (ts.length - 1) (by omega)]
        split
        · simp
        · intro hc
          exact absurd (Option.some.inj hc) (by omega)
      have hne : ¬ (j - 1 = p) := by omega
      simp only [endsLoop5, hn5, if_neg hend, if_neg hne]
      exact ih (j-1) (by omega) h2 (by omega)

theorem updateEnds_lin (ts : List Char) (p fuel : Nat) (hp : p < ts.length)
    (hf : ts.length + 1 ≤ fuel) :
    updateEnds (lin ts) fuel p p = some (ts.length - 1, 0) := by
  unfold updateEnds
  rw [endsLoop3_lin ts p fuel p (Nat.le_refl p) hp (by omega)]
  exact endsLoop5_lin ts p fuel p (Nat.le_refl p) hp (by omega)

theorem endsLoop3_cyc (K p : Nat) (hp : p < K) :
    ∀ fuel t, t < K → K - t ≤ fuel →
      endsLoop3 (cyc K) p fuel ((p + t) % K) p =
        some (Sum.inr ((p + (K - 1)) % K, p)) := by
  have hK : 0 < K := by omega
  intro fuel
  induction fuel with
  | zero => intro t h1 h2; omega
  | succ fuel ih =>
    intro t h1 h2
    have hmem : (p + t) % K < K := Nat.mod_lt _ hK
    have hn3 : n3 (cyc K) ((p + t) % K) = some ((p + (t + 1)) % K) := by
      rw [n3_cyc K _ hmem, Nat.mod_add_mod, Nat.add_assoc]
    by_cases ht : t + 1 = K
    · have hv : (p + (t + 1)) % K = p := by
        rw [ht, Nat.add_mod_right]
        exact Nat.mod_eq_of_lt hp
      have ht2 : t = K - 1 := by omega
      subst ht2
      simp only [endsLoop3, hn3, hv]
      simp
    · have hv : ¬ ((p + (t + 1)) % K = p) := by
        rw [add_mod_eq_self_iff hp, Nat.mod_eq_of_lt (by omega)]
        omega
      simp only [endsLoop3, hn3, if_neg hv]
      exact ih (t+1) (by omega) (by omega)

theorem endsLoop5_cyc (K p : Nat) (hp : p < K) (hK2 : 2 ≤ K) :
    ∀ fuel t, t < K → K - t ≤ fuel →
      endsLoop5 (cyc K) p fuel ((p + (K - 1)) % K) ((p + (K - t)) % K) =
        some ((p + (K - 1)) % K, p) := by
  have hK : 0 < K := by omega
  have hqlt : (p + (K - 1)) % K < K := Nat.mod_lt _ hK
  have hguard : n5 (cyc K) ((p + (K - 1)) % K) ≠ some ((p + (K - 1)) % K) := by
    rw [n5_cyc K _ hqlt]
    simp only [Option.some.injEq, ne_eq]
    have h1 : ((p + (K - 1)) % K + K - 1) % K = (p + (K - 2)) % K := by
      rw [show (p + (K - 1)) % K + K - 1 = (p + (K - 1)) % K + (K - 1) by omega,
        Nat.mod_add_mod,
        show p + (K - 1) + (K - 1) = p + (K - 2) + K by omega,
        Nat.add_mod_right]
    rw [h1, add_mod_inj hp (by omega) (by omega)]
    omega
  intro fuel
  induction fuel with
  | zero => intro t h1 h2; omega
  | succ fuel ih =>
    intro t h1 h2
    have hmem : (p + (K - t)) % K < K := Nat.mod_lt _ hK
    have hn5 : n5 (cyc K) ((p + (K - t)) % K) =
        some ((p + (K - (t + 1))) % K) := by
      rw [n5_cyc K _ hmem,
        show (p + (K - t)) % K + K - 1 = (p + (K - t)) % K + (K - 1) by omega,
        Nat.mod_add_mod]
      by_cases ht : t + 1 = K
      · rw [show p + (K - t) + (K - 1) = p + (K - (t+1)) + K by omega,
          Nat.add_mod_right]
      · rw [show p + (K - t) + (K - 1) = p + (K - (t+1)) + K by omega,
          Nat.add_mod_right]
    by_cases ht : t + 1 = K
    · have hv : (p + (K - (t + 1))) % K = p := by
        rw [ht, Nat.sub_self, Nat.add_zero]
        exact Nat.mod_eq_of_lt hp
      have hq : n5 (cyc K) p = some ((p + (K - 1)) % K) := by
        rw [n5_cyc K p hp,
          show p + K - 1 = p + (K - 1) by omega]
      simp only [endsLoop5, hn5, hv, if_neg hguard, hq]
      simp
    · have hv : ¬ ((p + (K - (t + 1))) % K = p) := by
        rw [add_mod_eq_self_iff hp, Nat.mod_eq_of_lt (by omega)]
        omega
      simp only [endsLoop5, hn5, if_neg hguard, if_neg hv]
      exact ih (t+1) (by omega) (by omega)

theorem updateEnds_cyc (K p fuel : Nat) (hp : p < K) (hf : K + 1 ≤ fuel) :
    updateEnds (cyc K) fuel p p = some ((p + (K - 1)) % K, p) := by
  have hK : 0 < K := by omega
  unfold updateEnds
  have h3 := endsLoop3_cyc K p hp fuel 0 hK (by omega)
  rw [Nat.add_zero, Nat.mod_eq_of_lt hp] at h3
  rw [h3]
  by_cases hK2 : 2 ≤ K
  · have h5 := endsLoop5_cyc K p hp hK2 fuel 0 hK (by omega)
    rw [Nat.sub_zero, Nat.add_mod_right, Nat.mod_eq_of_lt hp] at h5
    exact h5
  · have hK1 : K = 1 := by omega
    subst hK1
    have hp0 : p = 0 := by omega
    subst hp0
    have hn5 : n5 (cyc 1) 0 = some 0 := by rw [n5_cyc 1 0 (by omega)]
    match fuel, hf with
    | fuel + 1, _ =>
      simp only [endsLoop5, hn5]
      simp

/-! ### Traversals of the canonical chains -/

theorem travLoop_lin_forward (ts : List Char) :
    ∀ fuel j, j < ts.length → ts.length - j + 1 ≤ fuel →
      travLoop (lin ts) (fun E x => n3 E x) 0 fuel (some j) =
        some (List.range' j (ts.length - j)) := by
  intro fuel
  induction fuel with
  | zero => intro j h1 h2; omega
  | succ fuel ih =>
    intro j h1 h2
    by_cases hj : j + 1 < ts.length
    · have hn3 : n3 (lin ts) j = some (j+1) := by
        rw [n3_lin ts j h1]; simp [hj]
      have hne : ¬ (some (j+1) = some 0) := by simp
      simp only [travLoop, hn3]
      rw [if_neg hne, ih (j+1) hj (by omega)]
      have hlen : ts.length - j = (ts.length - (j+1)) + 1 := by omega
      rw [hlen]
      rfl
    · have hn3 : n3 (lin ts) j = none := by
        rw [n3_lin ts j h1]; simp [hj]
      have hne : ¬ ((none : Option Nat) = some 0) := by simp
      simp only [travLoop, hn3]
      rw [if_neg hne]
      cases fuel with
      | zero => omega
      | succ fuel =>
        simp only [travLoop, Option.map_some]
        have hlen : ts.length - j = 1 := by omega
        rw [hlen]
        rfl

theorem forEachIds_lin_forward (ts : List Char) (e3 fuel : Nat)
    (hne : ts ≠ []) (hf : ts.length + 1 ≤ fuel) :
    forEachIds (lin ts) e3 0 false fuel = some (List.range ts.length) := by
  have h0 : 0 < ts.length := List.length_pos.mpr hne
  unfold forEachIds
  simp only [Bool.false_eq_true, if_false]
  have := travLoop_lin_forward ts fuel 0 h0 (by omega)
  simpa [List.range_eq_range'] using this

theorem travLoop_lin_backward (ts : List Char) :
    ∀ fuel j, j < ts.length → j + 2 ≤ fuel →
      travLoop (lin ts) (fun E x => n5 E x) (ts.length - 1) fuel (some j) =
        some (List.range (j+1)).reverse := by
  intro fuel
  induction fuel with
  | zero => intro j h1 h2; omega
  | succ fuel ih =>
    intro j h1 h2
    by_cases hj : j = 0
    · subst hj
      have hn5 : n5 (lin ts) 0 = none := by
        rw [n5_lin ts 0 h1]; simp
      have hne : ¬ ((none : Option Nat) = some (ts.length - 1)) := by simp
      simp only [travLoop, hn5]
      rw [if_neg hne]
      cases fuel with
      | zero => omega
      | succ fuel =>
        simp only [travLoop, Option.map_some]
        rfl
    · have hn5 : n5 (lin ts) j = some (j - 1) := by
        rw [n5_lin ts j h1]; simp [hj]
      have hne : ¬ (some (j - 1) = some (ts.length - 1)) := by
        simp only [Option.some.injEq]
        omega
      simp only [travLoop, hn5]
      rw [if_neg hne, ih (j-1) (by omega) (by omega)]
      have hj1 : j - 1 + 1 = j := by omega
      rw [hj1]
      simp [List.range_succ]

theorem forEachIds_lin_backward (ts : List Char) (e5 fuel : Nat)
    (hne : ts ≠ []) (hf : ts.length + 1 ≤ fuel) :
    forEachIds (lin ts) (ts.length - 1) e5 true fuel =
      some (List.range ts.length).reverse := by
  have h0 : 0 < ts.length := List.length_pos.mpr hne
  unfold forEachIds
  simp only [if_true]
  have h1 : ts.length - 1 + 1 = ts.length := by omega
  have h2 := travLoop_lin_backward ts fuel (ts.length - 1) (by omega) (by omega)
  rw [h2, h1]

theorem travLoop_cyc_forward (K s : Nat) (hs : s < K) :
    ∀ fuel t, t < K → K - t + 1 ≤ fuel →
      travLoop (cyc K) (fun E x => n3 E x) s fuel (some ((s + t) % K)) =
        some ((List.range (K - t)).map (fun u => (s + t + u) % K)) := by
  have hK : 0 < K := by omega
  intro fuel
  induction fuel with
  | zero => intro t h1 h2; omega
  | succ fuel ih =>
    intro t h1 h2
    have hmem : (s + t) % K < K := Nat.mod_lt _ hK
    have hn3 : n3 (cyc K) ((s + t) % K) = some ((s + (t + 1)) % K) := by
      rw [n3_cyc K _ hmem, Nat.mod_add_mod, Nat.add_assoc]
    by_cases ht : t + 1 = K
    · have hv : (s + (t + 1)) % K = s := by
        rw [ht, Nat.add_mod_right]
        exact Nat.mod_eq_of_lt hs
      simp only [travLoop, hn3, hv]
      have hlen : K - t = 1 := by omega
      rw [hlen, show List.range 1 = [0] from rfl]
      simp
    · have hv : ¬ (some ((s + (t + 1)) % K) = some s) := by
        simp only [Option.some.injEq]
        rw [add_mod_eq_self_iff hs, Nat.mod_eq_of_lt (by omega)]
        omega
      simp only [travLoop, hn3]
      rw [if_neg hv, ih (t+1) (by omega) (by omega)]
      have hlen : K - t = (K - (t+1)) + 1 := by omega
      simp only [Option.map_some', hlen, List.range_succ_eq_map, List.map_cons,
        List.map_map, Nat.add_zero, Option.some.injEq, List.cons.injEq]
      refine ⟨trivial, ?_⟩
      apply List.map_congr_left
      intro u _
      simp only [Function.comp_apply]
      congr 1
      omega

theorem forEachIds_cyc_forward (K s e3 fuel : Nat) (hs : s < K)
    (hf : K + 1 ≤ fuel) :
    forEachIds (cyc K) e3 s false fuel =
      some ((List.range K).map (fun u => (s + u) % K)) := by
  unfold forEachIds
  simp only [Bool.false_eq_true, if_false]
  have := travLoop_cyc_forward K s hs fuel 0 (by omega) (by omega)
  rw [Nat.add_zero, Nat.mod_eq_of_lt hs] at this
  simpa using this

/-! ### getLength on the canonical cycle -/

theorem lenLoop_cyc (K q : Nat) (hq : q < K) :
    ∀ fuel t, t < K → K - t ≤ fuel →
      lenLoop (cyc K) q fuel (some ((q + (K - t)) % K)) t = some K := by
  have hK : 0 < K := by omega
  intro fuel
  induction fuel with
  | zero => intro t h1 h2; omega
  | succ fuel ih =>
    intro t h1 h2
    have hmem : (q + (K - t)) % K < K := Nat.mod_lt _ hK
    have hn5 : n5 (cyc K) ((q + (K - t)) % K) =
        some ((q + (K - (t + 1))) % K) := by
      rw [n5_cyc K _ hmem,
        show (q + (K - t)) % K + K - 1 = (q + (K - t)) % K + (K - 1) by omega,
        Nat.mod_add_mod,
        show q + (K - t) + (K - 1) = q + (K - (t+1)) + K by omega,
        Nat.add_mod_right]
    by_cases ht : t + 1 = K
    · have hv : (q + (K - (t + 1))) % K = q := by
        rw [ht, Nat.sub_self, Nat.add_zero]
        exact Nat.mod_eq_of_lt hq
      have hqq : q % K = q := Nat.mod_eq_of_lt hq
      simp [lenLoop, hn5, hv, ht, hqq]
    · have hv : ¬ (some ((q + (K - (t + 1))) % K) = some q) := by
        simp only [Option.some.injEq]
        rw [add_mod_eq_self_iff hq, Nat.mod_eq_of_lt (by omega)]
        omega
      simp only [lenLoop, hn5]
      rw [if_neg hv]
      exact ih (t+1) (by omega) (by omega)

theorem getLength_cyc (K q fuel : Nat) (hq : q < K) (hf : K + 1 ≤ fuel) :
    getLength (cyc K) q fuel = some K := by
  unfold getLength
  have := lenLoop_cyc K q hq fuel 0 (by omega) (by omega)
  rw [Nat.sub_zero, Nat.add_mod_right, Nat.mod_eq_of_lt hq] at this
  exact this

/-! ### setStrandRefs preserves the links and sets the back-references -/

theorem n3_setStrandOf (E : Elems) (i sid j : Nat) :
    n3 (setStrandOf E i sid) j = n3 E j := by
  unfold setStrandOf n3
  cases h : E[i]? with
  | none => rfl
  | some el =>
    by_cases hj : i = j
    · subst hj
      have hlen : i < E.length := by
        by_contra hc
        rw [List.getElem?_eq_none (by omega)] at h
        cases h
      rw [List.getElem?_set_self hlen, h]
      rfl
    · rw [List.getElem?_set_ne hj]

theorem n5_setStrandOf (E : Elems) (i sid j : Nat) :
    n5 (setStrandOf E i sid) j = n5 E j := by
  unfold setStrandOf n5
  cases h : E[i]? with
  | none => rfl
  | some el =>
    by_cases hj : i = j
    · subst hj
      have hlen : i < E.length := by
        by_contra hc
        rw [List.getElem?_eq_none (by omega)] at h
        cases h
      rw [List.getElem?_set_self hlen, h]
      rfl
    · rw [List.getElem?_set_ne hj]

theorem length_setStrandOf (E : Elems) (i sid : Nat) :
    (setStrandOf E i sid).length = E.length := by
  unfold setStrandOf
  cases E[i]? <;> simp

theorem n3_setStrandRefs (E : Elems) (sid : Nat) (ids : List Nat) (j : Nat) :
    n3 (setStrandRefs E sid ids) j = n3 E j := by
  induction ids generalizing E with
  | nil => rfl
  | cons a rest ih =>
    unfold setStrandRefs at ih ⊢
    simp only [List.foldl_cons]
    rw [ih, n3_setStrandOf]

theorem n5_setStrandRefs (E : Elems) (sid : Nat) (ids : List Nat) (j : Nat) :
    n5 (setStrandRefs E sid ids) j = n5 E j := by
  induction ids generalizing E with
  | nil => rfl
  | cons a rest ih =>
    unfold setStrandRefs at ih ⊢
    simp only [List.foldl_cons]
    rw [ih, n5_setStrandOf]

theorem length_setStrandRefs (E : Elems) (sid : Nat) (ids : List Nat) :
    (setStrandRefs E sid ids).length = E.length := by
  induction ids generalizing E with
  | nil => rfl
  | cons a rest ih =>
    unfold setStrandRefs at ih ⊢
    simp only [List.foldl_cons]
    rw [ih, length_setStrandOf]

theorem strandOf_setStrandOf (E : Elems) (i sid j : Nat) :
    strandOf (setStrandOf E i sid) j =
      if j = i ∧ i < E.length then some sid else strandOf E j := by
  unfold setStrandOf strandOf
  cases h : E[i]? with
  | none =>
    have hge : ¬ i < E.length := by
      intro hc
      rw [List.getElem?_eq_getElem hc] at h
      cases h
    simp [hge]
  | some el =>
    have hlen : i < E.length := by
      by_contra hc
      rw [List.getElem?_eq_none (by omega)] at h
      cases h
    by_cases hj : j = i
    · subst hj
      rw [List.getElem?_set_self hlen]
      simp [hlen]
    · rw [List.getElem?_set_ne (fun hc => hj hc.symm)]
      simp [hj]

theorem strandOf_setStrandRefs_not_mem (E : Elems) (sid : Nat)
    (ids : List Nat) (j : Nat) (hj : j ∉ ids) :
    strandOf (setStrandRefs E sid ids) j = strandOf E j := by
  induction ids generalizing E with
  | nil => rfl
  | cons a rest ih =>
    unfold setStrandRefs at ih ⊢
    simp only [List.foldl_cons]
    rw [ih _ (fun hc => hj (List.mem_cons_of_mem a hc)), strandOf_setStrandOf]
    have hne : ¬ (j = a) := fun hc => hj (hc ▸ List.mem_cons_self a rest)
    simp [hne]

theorem strandOf_setStrandRefs_mem (E : Elems) (sid : Nat) (ids : List Nat)
    (j : Nat) (hj : j ∈ ids) (hlen : j < E.length) :
    strandOf (setStrandRefs E sid ids) j = some sid := by
  induction ids generalizing E with
  | nil => cases hj
  | cons a rest ih =>
    unfold setStrandRefs at ih ⊢
    simp only [List.foldl_cons]
    by_cases hr : j ∈ rest
    · exact ih _ hr (by rw [length_setStrandOf]; exact hlen)
    · have hja : j = a := by
        rcases List.mem_cons.mp hj with h | h
        · exact h
        · exact absurd h hr
      subst hja
      rw [show (List.foldl (fun acc i => setStrandOf acc i sid) (setStrandOf E j sid) rest) = setStrandRefs (setStrandOf E j sid) sid rest from rfl]
      rw [strandOf_setStrandRefs_not_mem _ _ _ _ hr, strandOf_setStrandOf]
      simp [hlen]

theorem lenLoop_congr (E E2 : Elems) (h : ∀ x, n5 E x = n5 E2 x) :
    ∀ fuel e3 e i, lenLoop E e3 fuel e i = lenLoop E2 e3 fuel e i := by
  intro fuel
  induction fuel with
  | zero => intro e3 e i; rfl
  | succ fuel ih =>
    intro e3 e i
    cases e with
    | none => rfl
    | some x =>
      simp only [lenLoop, h x]
      split
      · rfl
      · exact ih e3 _ _

/-! ### Claim theorems: C1, C5, C6, C7 -/

/-- Claim C1: for every strand seeded anywhere on a linear chain,
`updateEnds` terminates (with fuel length+1) with `end3`/`end5` at the two
physical extremities (whose outward links are absent); for every strand
seeded anywhere on a pre-linked cycle of K elements, it terminates with
`end5 = end3.n3` — the circular-strand convention established by the
cycle-detection branches — with no infinite loop in either case. -/
theorem C1_updateEnds_linear_circular :
    (∀ (ts : List Char) (p fuel : Nat), p < ts.length →
      ts.length + 1 ≤ fuel →
      updateEnds (lin ts) fuel p p = some (ts.length - 1, 0) ∧
      n3 (lin ts) (ts.length - 1) = none ∧ n5 (lin ts) 0 = none) ∧
    (∀ (K p fuel : Nat), p < K → K + 1 ≤ fuel →
      updateEnds (cyc K) fuel p p = some ((p + (K - 1)) % K, p) ∧
      n3 (cyc K) ((p + (K - 1)) % K) = some p) := by
  constructor
  · intro ts p fuel hp hf
    refine ⟨updateEnds_lin ts p fuel hp hf, ?_, ?_⟩
    · rw [n3_lin ts _ (by omega)]
      rw [if_neg (by omega)]
    · rw [n5_lin ts 0 (by omega)]
      simp
  · intro K p fuel hp hf
    have hq : (p + (K - 1)) % K < K := Nat.mod_lt _ (by omega)
    refine ⟨updateEnds_cyc K p fuel hp hf, ?_⟩
    rw [n3_cyc K _ hq, Nat.mod_add_mod,
      show p + (K - 1) + 1 = p + K by omega, Nat.add_mod_right,
      Nat.mod_eq_of_lt hp]

/-- Witness for C1 at a 3-element linear chain seeded mid-chain and a
5-element cycle seeded at 2. -/
theorem C1_updateEnds_linear_circular_witness :
    updateEnds (lin "ACG".toList) 4 1 1 = some (2, 0) ∧
    updateEnds (cyc 5) 7 2 2 = some (1, 2) ∧
    n3 (cyc 5) 1 = some 2 :=
  ⟨(C1_updateEnds_linear_circular.1 "ACG".toList 1 4 (by decide) (by decide)).1,
   (C1_updateEnds_linear_circular.2 5 2 7 (by decide) (by decide)).1,
   (C1_updateEnds_linear_circular.2 5 2 7 (by decide) (by decide)).2⟩

/-- Claim C5: a strand seeded with `setFrom` on an element of a pre-linked
cycle of K elements (any K at least 1, any seed) succeeds, `getLength()`
terminates and returns exactly K, and `isCircular()` returns true. -/
theorem C5_setFrom_cycle_length_circular (K p sid fuel : Nat) (hp : p < K)
    (hf : K + 2 ≤ fuel) :
    ∃ E2, setFrom Family.na (cyc K) sid (some p) fuel none none =
        some (Except.ok (), (some ((p + (K - 1)) % K), some p, E2)) ∧
      getLength E2 ((p + (K - 1)) % K) fuel = some K ∧
      isCircular E2 ((p + (K - 1)) % K) p = true := by
  have hq : (p + (K - 1)) % K < K := Nat.mod_lt _ (by omega)
  refine ⟨setStrandRefs (cyc K) sid
    ((List.range K).map (fun u => (p + u) % K)), ?_, ?_, ?_⟩
  · unfold setFrom
    dsimp only
    rw [updateEnds_cyc K p fuel hp (by omega)]
    have hfe : forEachF Family.na (cyc K) ((p + (K - 1)) % K) p false fuel =
        some ((List.range K).map (fun u => (p + u) % K)) :=
      forEachIds_cyc_forward K p _ fuel hp (by omega)
    dsimp only
    rw [hfe]
  · unfold getLength
    rw [lenLoop_congr _ (cyc K) (fun x => n5_setStrandRefs _ _ _ x) fuel _ _ _]
    have := lenLoop_cyc K _ hq fuel 0 (by omega) (by omega)
    rw [Nat.sub_zero, Nat.add_mod_right, Nat.mod_eq_of_lt hq] at this
    exact this
  · unfold isCircular
    rw [n3_setStrandRefs, n3_cyc K _ hq, Nat.mod_add_mod,
      show p + (K - 1) + 1 = p + K by omega, Nat.add_mod_right,
      Nat.mod_eq_of_lt hp]
    simp

/-- Witness for C5 at a 4-cycle seeded at 1. -/
theorem C5_setFrom_cycle_length_circular_witness :
    ∃ E2, setFrom Family.na (cyc 4) 7 (some 1) 6 none none =
        some (Except.ok (), (some ((1 + (4 - 1)) % 4), some 1, E2)) ∧
      getLength E2 ((1 + (4 - 1)) % 4) 6 = some 4 ∧
      isCircular E2 ((1 + (4 - 1)) % 4) 1 = true :=
  C5_setFrom_cycle_length_circular 4 1 7 6 (by decide) (by decide)

/-- Claim C6: for the canonical post-`updateEnds` states, `isCircular()` is
true exactly when following 3-prime links from `end3` eventually (in at
least one step) returns to `end5`: false on every linear chain, true on
every cycle. -/
theorem C6_isCircular_iff_reach :
    (∀ (ts : List Char), ts ≠ [] →
      (isCircular (lin ts) (ts.length - 1) 0 = true ↔
        ∃ k, 1 ≤ k ∧ n3Iter (lin ts) k (ts.length - 1) = some 0)) ∧
    (∀ (K p : Nat), p < K →
      (isCircular (cyc K) ((p + (K - 1)) % K) p = true ↔
        ∃ k, 1 ≤ k ∧ n3Iter (cyc K) k ((p + (K - 1)) % K) = some p)) := by
  constructor
  · intro ts hne
    have h0 : 0 < ts.length := List.length_pos.mpr hne
    have h3 : n3 (lin ts) (ts.length - 1) = none := by
      rw [n3_lin ts _ (by omega)]
      rw [if_neg (by omega)]
    constructor
    · intro hcirc
      rw [isCircular, h3] at hcirc
      cases hcirc
    · rintro ⟨k, hk, hiter⟩
      exfalso
      cases k with
      | zero => omega
      | succ k =>
        rw [n3Iter, h3] at hiter
        cases hiter
  · intro K p hp
    have hq : (p + (K - 1)) % K < K := Nat.mod_lt _ (by omega)
    have h3 : n3 (cyc K) ((p + (K - 1)) % K) = some p := by
      rw [n3_cyc K _ hq, Nat.mod_add_mod,
        show p + (K - 1) + 1 = p + K by omega, Nat.add_mod_right,
        Nat.mod_eq_of_lt hp]
    constructor
    · intro _
      exact ⟨1, Nat.le_refl 1, by rw [n3Iter, h3]; rfl⟩
    · intro _
      rw [isCircular, h3]
      simp

/-- Witness for C6 at a 2-element linear chain and a 3-cycle. -/
theorem C6_isCircular_iff_reach_witness :
    (isCircular (lin "AC".toList) ("AC".toList.length - 1) 0 = true ↔
      ∃ k, 1 ≤ k ∧ n3Iter (lin "AC".toList) k ("AC".toList.length - 1) = some 0) ∧
    (isCircular (cyc 3) ((0 + (3 - 1)) % 3) 0 = true ↔
      ∃ k, 1 ≤ k ∧ n3Iter (cyc 3) k ((0 + (3 - 1)) % 3) = some 0) :=
  ⟨C6_isCircular_iff_reach.1 "AC".toList (by decide),
   C6_isCircular_iff_reach.2 3 0 (by decide)⟩

/-- Claim C7: `setFrom` on an absent element fails with the explicit error
and returns the strand state completely unchanged; on a present element of a
linear chain it seeds the ends, walks out to the true extremities via
`updateEnds`, and sets the strand back-reference of every traversed element
(all of them) to this strand, for every family variant. -/
theorem C7_setFrom_error_and_seed :
    (∀ (fam : Family) (E : Elems) (sid fuel : Nat) (prev3 prev5 : Option Nat),
      setFrom fam E sid none fuel prev3 prev5 =
        some (Except.error "Cannot set empty strand end".toList,
          (prev3, prev5, E))) ∧
    (∀ (fam : Family) (ts : List Char) (sid p fuel : Nat), p < ts.length →
      ts.length + 1 ≤ fuel →
      ∃ E2, setFrom fam (lin ts) sid (some p) fuel none none =
          some (Except.ok (), (some (ts.length - 1), some 0, E2)) ∧
        ∀ j, j < ts.length → strandOf E2 j = some sid) := by
  constructor
  · intro fam E sid fuel prev3 prev5
    rfl
  · intro fam ts sid p fuel hp hf
    have hne : ts ≠ [] := by
      intro hc
      rw [hc] at hp
      exact absurd hp (by simp)
    have hlin : (lin ts).length = ts.length := length_lin ts
    cases fam with
    | na =>
      refine ⟨setStrandRefs (lin ts) sid (List.range ts.length), ?_, ?_⟩
      · unfold setFrom
        dsimp only
        rw [updateEnds_lin ts p fuel hp hf]
        have hfe : forEachF Family.na (lin ts) (ts.length - 1) 0 false fuel =
            some (List.range ts.length) :=
          forEachIds_lin_forward ts _ fuel hne (by omega)
        dsimp only
        rw [hfe]
      · intro j hj
        exact strandOf_setStrandRefs_mem _ _ _ _ (List.mem_range.mpr hj)
          (by rw [hlin]; exact hj)
    | peptide =>
      refine ⟨setStrandRefs (lin ts) sid (List.range ts.length).reverse, ?_, ?_⟩
      · unfold setFrom
        dsimp only
        rw [updateEnds_lin ts p fuel hp hf]
        have hfe : forEachF Family.peptide (lin ts) (ts.length - 1) 0 false fuel =
            some (List.range ts.length).reverse :=
          forEachIds_lin_backward ts 0 fuel hne (by omega)
        dsimp only
        rw [hfe]
      · intro j hj
        exact strandOf_setStrandRefs_mem _ _ _ _
          (List.mem_reverse.mpr (List.mem_range.mpr hj)) (by rw [hlin]; exact hj)
    | generic =>
      refine ⟨setStrandRefs (lin ts) sid (List.range ts.length).reverse, ?_, ?_⟩
      · unfold setFrom
        dsimp only
        rw [updateEnds_lin ts p fuel hp hf]
        have hfe : forEachF Family.generic (lin ts) (ts.length - 1) 0 false fuel =
            some (List.range ts.length).reverse :=
          forEachIds_lin_backward ts 0 fuel hne (by omega)
        dsimp only
        rw [hfe]
      · intro j hj
        exact strandOf_setStrandRefs_mem _ _ _ _
          (List.mem_reverse.mpr (List.mem_range.mpr hj)) (by rw [hlin]; exact hj)

/-- Witness for C7: error path on an arbitrary state, and the seeding path on
a 2-element peptide chain. -/
theorem C7_setFrom_error_and_seed_witness :
    setFrom Family.na (lin "AC".toList) 5 none 3 (some 9) (some 8) =
      some (Except.error "Cannot set empty strand end".toList,
        (some 9, some 8, lin "AC".toList)) ∧
    ∃ E2, setFrom Family.peptide (lin "AC".toList) 3 (some 0) 4 none none =
        some (Except.ok (), (some ("AC".toList.length - 1), some 0, E2)) ∧
      ∀ j, j < "AC".toList.length → strandOf E2 j = some 3 :=
  ⟨C7_setFrom_error_and_seed.1 Family.na (lin "AC".toList) 5 3 (some 9) (some 8),
   C7_setFrom_error_and_seed.2 Family.peptide "AC".toList 3 0 4 (by decide)
     (by decide)⟩

/-! ### Claim theorems: C3, C4, C9 -/

/-- Counterexample to claim C3 as stated: on a 2-element Peptide strand the
sequence returned by `getSequence()` is not the concatenation of the types of
`getMonomers()` — the `map`/`forEach` double inversion makes `getSequence`
traverse forward while `getMonomers` is inverted. -/
theorem C3_getSequence_counterexample :
    getSequence Family.peptide (lin "AB".toList) 1 0 9 ≠
      (getMonomersDefault Family.peptide (lin "AB".toList) 1 0 9).map
        (fun ids => ids.filterMap (typeOf (lin "AB".toList))) := by
  decide

/-- Claim C3 (amended): for nucleic-acid strands `getSequence()` is exactly
the concatenation of the types of `getMonomers()`; for Peptide and Generic
strands `getMonomers()` is inverted relative to nucleic-acid strands, but
`getSequence()` still traverses in the nucleic-acid direction (the
`map`/`forEach` override inversions cancel), so it equals the concatenation
of the types of `getMonomers()` in reverse order. -/
theorem C3_getSequence_amended :
    (∀ (E : Elems) (e3 e5 fuel : Nat),
      getSequence Family.na E e3 e5 fuel =
        (getMonomersDefault Family.na E e3 e5 fuel).map
          (fun ids => ids.filterMap (typeOf E))) ∧
    (∀ (fam : Family) (ts : List Char) (fuel : Nat), fam ≠ Family.na →
      ts ≠ [] → ts.length + 1 ≤ fuel →
      getSequence fam (lin ts) (ts.length - 1) 0 fuel =
        (getMonomersDefault fam (lin ts) (ts.length - 1) 0 fuel).map
          (fun ids => (ids.filterMap (typeOf (lin ts))).reverse) ∧
      getMonomersDefault fam (lin ts) (ts.length - 1) 0 fuel =
        (getMonomersDefault Family.na (lin ts) (ts.length - 1) 0 fuel).map
          List.reverse) := by
  constructor
  · intro E e3 e5 fuel
    rfl
  · intro fam ts fuel hfam hne hf
    have hfwd : forEachIds (lin ts) (ts.length - 1) 0 false fuel =
        some (List.range ts.length) :=
      forEachIds_lin_forward ts _ fuel hne hf
    have hbwd : forEachIds (lin ts) (ts.length - 1) 0 true fuel =
        some (List.range ts.length).reverse :=
      forEachIds_lin_backward ts 0 fuel hne hf
    cases fam with
    | na => exact absurd rfl hfam
    | peptide =>
      constructor
      · show (forEachIds (lin ts) _ 0 false fuel).map _ =
          ((forEachIds (lin ts) _ 0 true fuel).map _ : Option (List Char))
        rw [hfwd, hbwd]
        simp only [Option.map_some']
        rw [List.filterMap_reverse, List.reverse_reverse]
      · show forEachIds (lin ts) _ 0 true fuel =
          (forEachIds (lin ts) _ 0 false fuel).map List.reverse
        rw [hfwd, hbwd]
        rfl
    | generic =>
      constructor
      · show (forEachIds (lin ts) _ 0 false fuel).map _ =
          ((forEachIds (lin ts) _ 0 true fuel).map _ : Option (List Char))
        rw [hfwd, hbwd]
        simp only [Option.map_some']
        rw [List.filterMap_reverse, List.reverse_reverse]
      · show forEachIds (lin ts) _ 0 true fuel =
          (forEachIds (lin ts) _ 0 false fuel).map List.reverse
        rw [hfwd, hbwd]
        rfl

/-- Witness for amended C3 on a 3-element Generic strand. -/
theorem C3_getSequence_amended_witness :
    getSequence Family.generic (lin "ACG".toList) ("ACG".toList.length - 1) 0 5 =
      (getMonomersDefault Family.generic (lin "ACG".toList)
        ("ACG".toList.length - 1) 0 5).map
        (fun ids => (ids.filterMap (typeOf (lin "ACG".toList))).reverse) ∧
    getMonomersDefault Family.generic (lin "ACG".toList)
        ("ACG".toList.length - 1) 0 5 =
      (getMonomersDefault Family.na (lin "ACG".toList)
        ("ACG".toList.length - 1) 0 5).map List.reverse :=
  C3_getSequence_amended.2 Family.generic "ACG".toList 5 (by decide) (by decide)
    (by decide)

/-- Counterexample to claim C4 as stated: searching the 4-element strand
with sequence "AAAB" for the pattern "AAB" returns no match, even though the
consecutive run of elements 1, 2, 3 has types exactly "AAB" — the
single-character resync cannot recover a run that overlaps a failed partial
match, so `search` does not return every maximal matching run. -/
theorem C4_search_counterexample :
    search (lin "AAAB".toList) 3 0 9 "AAB".toList = some [] ∧
    [1, 2, 3].filterMap (typeOf (lin "AAAB".toList)) = "AAB".toList ∧
    n3 (lin "AAAB".toList) 1 = some 2 ∧ n3 (lin "AAAB".toList) 2 = some 3 := by
  decide

theorem searchFold_nil (E : Elems) (seq : List Char) (hseq : seq ≠ []) :
    ∀ ids : List Nat, (∀ x ∈ ids, isTypeAt E x seq[(0 : Nat)]? = false) →
      ids.foldl (searchStep E seq) ([], []) = ([], []) := by
  have hlen : seq.length ≠ 0 := by
    intro hc
    exact hseq (List.length_eq_zero.mp hc)
  intro ids
  induction ids with
  | nil => intro _; rfl
  | cons a rest ih =>
    intro hall
    have hstep : searchStep E seq ([], []) a = ([], []) := by
      unfold searchStep
      have h0 : ¬ ((0 : Nat) = seq.length) := by omega
      have hA := hall a (List.mem_cons_self a rest)
      simp [h0, hA]
    simp only [List.foldl_cons, hstep]
    exact ih (fun x hx => hall x (List.mem_cons_of_mem a hx))

/-- Claim C4 (amended): `search` scans the natural traversal left to right
using the single-character resync (so it may miss runs overlapping a failed
partial match); it returns the empty list when no element matches the
pattern head, and on the round-trip examples it behaves as specified:
searching "ACGT" for "ACGT" yields the single full match, and searching the
6-element strand "AACGTA" for "CGT" yields exactly one match of length 3
starting at traversal index 2. -/
theorem C4_search_amended :
    (∀ (E : Elems) (e3 e5 fuel : Nat) (seq : List Char) (ids : List Nat),
      seq ≠ [] →
      forEachIds E e3 e5 false fuel = some ids →
      (∀ x ∈ ids, isTypeAt E x seq[(0 : Nat)]? = false) →
      search E e3 e5 fuel seq = some []) ∧
    search (lin "ACGT".toList) 3 0 9 "ACGT".toList = some [[0, 1, 2, 3]] ∧
    search (lin "AACGTA".toList) 5 0 9 "CGT".toList = some [[2, 3, 4]] := by
  refine ⟨?_, by decide, by decide⟩
  intro E e3 e5 fuel seq ids hseq hids hall
  unfold search
  rw [hids]
  simp only [Option.map_some']
  rw [searchFold_nil E seq hseq ids hall]
  have hne : ¬ ((List.nil (α := Nat)).length = seq.length) := by
    simp only [List.length_nil]
    have : seq.length ≠ 0 := fun hc => hseq (List.length_eq_zero.mp hc)
    omega
  rw [if_neg hne]

/-- Witness for amended C4: a strand with no element matching the pattern
head yields the empty result. -/
theorem C4_search_amended_witness :
    search (lin "GG".toList) 1 0 9 "A".toList = some [] :=
  C4_search_amended.1 (lin "GG".toList) 1 0 9 "A".toList [0, 1] (by decide)
    (by decide) (by decide)

/-- Claim C9: requesting an element with an unsupported type symbol (anything
other than "dna" or "rna" case-insensitively) from
`NucleicAcidStrand.createBasicElementTyped` yields an absent element and
exactly one notify report, with no throw path and no strand mutation (the
model is a total function of the type symbol alone); the supported symbols
yield the corresponding nucleotide kind and no report. -/
theorem C9_createBasicElementTyped_dispatch :
    ∀ ty : List Char,
      (lowerStr ty ≠ "rna".toList → lowerStr ty ≠ "dna".toList →
        createBasicElementTyped ty = (none, [notifyMsg ty])) ∧
      (lowerStr ty = "rna".toList →
        createBasicElementTyped ty = (some NucKind.RNA, [])) ∧
      (lowerStr ty = "dna".toList →
        createBasicElementTyped ty = (some NucKind.DNA, [])) := by
  intro ty
  refine ⟨?_, ?_, ?_⟩
  · intro h1 h2
    unfold createBasicElementTyped
    rw [if_neg h1, if_neg h2]
  · intro h
    unfold createBasicElementTyped
    rw [if_pos h]
  · intro h
    have h1 : lowerStr ty ≠ "rna".toList := by
      rw [h]
      decide
    unfold createBasicElementTyped
    rw [if_neg h1, if_pos h]

/-- Witness for C9 on the symbols "xna", "RnA" and "DNA". -/
theorem C9_createBasicElementTyped_dispatch_witness :
    createBasicElementTyped "xna".toList = (none, [notifyMsg "xna".toList]) ∧
    createBasicElementTyped "RnA".toList = (some NucKind.RNA, []) ∧
    createBasicElementTyped "DNA".toList = (some NucKind.DNA, []) :=
  ⟨(C9_createBasicElementTyped_dispatch "xna".toList).1 (by decide) (by decide),
   (C9_createBasicElementTyped_dispatch "RnA".toList).2.1 (by decide),
   (C9_createBasicElementTyped_dispatch "DNA".toList).2.2 (by decide)⟩

/-! ### Claim C10: translation round-trip -/

section TranslateLemmas

variable {α : Type} [LinearOrderedField α] [DecidableEq α]

theorem vadd_zero (w : Vec3 α) : vadd w ⟨0, 0, 0⟩ = w := by
  cases w
  simp [vadd]

theorem vadd_right_comm (w a b : Vec3 α) :
    vadd (vadd w a) b = vadd (vadd w b) a := by
  cases w
  cases a
  cases b
  simp only [vadd, Vec3.mk.injEq]
  refine ⟨by ring, by ring, by ring⟩

theorem vadd_cancel (w a : Vec3 α) : vadd (vadd w a) (vscale (-1) a) = w := by
  cases w
  cases a
  simp only [vadd, vscale, Vec3.mk.injEq]
  refine ⟨by ring, by ring, by ring⟩

theorem translatePosition_apply (tab : Nat → Vec3 α) (i : Nat) (u : Vec3 α)
    (j : Nat) :
    translatePosition tab i u j =
      vadd (tab j) (if j = i then u else ⟨0, 0, 0⟩) := by
  unfold translatePosition
  split_ifs with h
  · rw [h]
  · rw [vadd_zero]

theorem translatePosition_comm (tab : Nat → Vec3 α) (i k : Nat) (u v : Vec3 α) :
    translatePosition (translatePosition tab i u) k v =
      translatePosition (translatePosition tab k v) i u := by
  funext j
  rw [translatePosition_apply, translatePosition_apply,
    translatePosition_apply, translatePosition_apply, vadd_right_comm]

theorem translatePosition_cancel (tab : Nat → Vec3 α) (i : Nat) (u : Vec3 α) :
    translatePosition (translatePosition tab i u) i (vscale (-1) u) = tab := by
  funext j
  rw [translatePosition_apply, translatePosition_apply]
  split_ifs with h
  · rw [vadd_cancel]
  · rw [vadd_zero, vadd_zero]

theorem translateIds_cons (a : Vec3 α) (b : Nat) (L : List Nat)
    (tab : Nat → Vec3 α) :
    translateIds a (b :: L) tab = translateIds a L (translatePosition tab b a) :=
  rfl

theorem translateIds_bump_comm (a : Vec3 α) (L : List Nat)
    (tab : Nat → Vec3 α) (i : Nat) (u : Vec3 α) :
    translateIds a L (translatePosition tab i u) =
      translatePosition (translateIds a L tab) i u := by
  induction L generalizing tab with
  | nil => rfl
  | cons b L ih =>
    rw [translateIds_cons, translateIds_cons, translatePosition_comm, ih]

theorem translateIds_cancel (a : Vec3 α) (L : List Nat) (tab : Nat → Vec3 α) :
    translateIds (vscale (-1) a) L (translateIds a L tab) = tab := by
  induction L generalizing tab with
  | nil => rfl
  | cons b L ih =>
    rw [translateIds_cons, translateIds_cons, ← translateIds_bump_comm,
      translatePosition_cancel, ih]

set_option maxHeartbeats 1600000 in
theorem pepBump_comm (st : PepTables α) (i k : Nat) (u v : Vec3 α) :
    pepBump (pepBump st i u) k v = pepBump (pepBump st k v) i u := by
  unfold pepBump
  simp only [PepTables.mk.injEq]
  refine ⟨?_, ?_, ?_, ?_⟩ <;> funext j <;> split_ifs <;> ring

set_option maxHeartbeats 1600000 in
theorem pepBump_cancel (st : PepTables α) (i : Nat) (u : Vec3 α) :
    pepBump (pepBump st i u) i (vscale (-1) u) = st := by
  unfold pepBump vscale
  cases st
  simp only [PepTables.mk.injEq]
  refine ⟨?_, ?_, ?_, ?_⟩ <;> funext j <;> split_ifs <;> ring

theorem pepLoop_bump_comm (a : Vec3 α) (hi3 : Nat) :
    ∀ fuel i (st : PepTables α) (k : Nat) (v : Vec3 α),
      pepLoop a hi3 fuel i (pepBump st k v) =
        pepBump (pepLoop a hi3 fuel i st) k v := by
  intro fuel
  induction fuel with
  | zero => intro i st k v; rfl
  | succ fuel ih =>
    intro i st k v
    rw [pepLoop, pepLoop]
    split
    · rw [pepBump_comm, ih]
    · rfl

theorem pepLoop_cancel (a : Vec3 α) (hi3 : Nat) :
    ∀ fuel i (st : PepTables α),
      pepLoop (vscale (-1) a) hi3 fuel i (pepLoop a hi3 fuel i st) = st := by
  intro fuel
  induction fuel with
  | zero => intro i st; rfl
  | succ fuel ih =>
    intro i st
    by_cases h : i ≤ hi3
    · conv_lhs => rw [pepLoop]
      rw [if_pos h]
      conv_lhs => rw [show pepLoop a hi3 (fuel+1) i st =
        pepLoop a hi3 fuel (i+3) (pepBump st i a) by rw [pepLoop, if_pos h]]
      rw [← pepLoop_bump_comm, pepBump_cancel, ih]
    · rw [show pepLoop a hi3 (fuel+1) i st = st by rw [pepLoop, if_neg h]]
      rw [pepLoop, if_neg h]

end TranslateLemmas

/-- Claim C10: translating a strand by an offset and then by its negation
restores every position-bearing coordinate exactly: the per-element position
table for nucleic-acid strands, and the four flat offset tables
(ns/bb/bbcon/cm) for peptide/generic strands. -/
theorem C10_translateStrand_roundtrip {α : Type} [LinearOrderedField α]
    [DecidableEq α] :
    (∀ (E : Elems) (e3 e5 fuel : Nat) (amount : Vec3 α) (tab : Nat → Vec3 α)
      (ids : List Nat),
      getMonomers Family.na E e3 e5 true fuel = some ids →
      translateStrand E e3 e5 fuel amount tab =
        some (translateIds amount ids tab) ∧
      translateStrand E e3 e5 fuel (vscale (-1) amount)
        (translateIds amount ids tab) = some tab) ∧
    (∀ (E : Elems) (e3 e5 fuel : Nat) (amount : Vec3 α)
      (st st2 : PepTables α),
      translateStrandPep E e3 e5 fuel amount st = some st2 →
      translateStrandPep E e3 e5 fuel (vscale (-1) amount) st2 = some st) := by
  constructor
  · intro E e3 e5 fuel amount tab ids h
    unfold translateStrand
    rw [h]
    exact ⟨rfl, by simp only [Option.map_some']; rw [translateIds_cancel]⟩
  · intro E e3 e5 fuel amount st st2 h
    cases hms : getMonomersDefault Family.peptide E e3 e5 fuel with
    | none =>
      unfold translateStrandPep at h
      rw [hms] at h
      simp at h
    | some ms =>
      unfold translateStrandPep at h ⊢
      rw [hms] at h ⊢
      simp only [Option.some_bind] at h ⊢
      split at h
      · split at h
        · cases h
          rw [pepLoop_cancel]
        · cases h
      · cases h

/-- Witness for C10: a nucleic-acid strand on a 2-element chain and a peptide
strand whose slot loop covers two blocks, both over ℚ. -/
theorem C10_translateStrand_roundtrip_witness :
    translateStrand (lin "AC".toList) 1 0 9 (vscale (-1) (⟨1, 2, 3⟩ : Vec3 ℚ))
        (translateIds (⟨1, 2, 3⟩ : Vec3 ℚ) [1, 0] (fun _ => ⟨0, 0, 0⟩)) =
      some (fun _ => ⟨0, 0, 0⟩) ∧
    translateStrandPep
        [{ n3 := none, n5 := some 1, type := 'A', strand := 0, sid := 0 },
         { n3 := some 0, n5 := none, type := 'B', strand := 0, sid := 1 }]
        0 1 9 (vscale (-1) (⟨1, 2, 3⟩ : Vec3 ℚ))
        (pepLoop (⟨1, 2, 3⟩ : Vec3 ℚ) 3 2 0 ⟨fun _ => 0, fun _ => 0, fun _ => 0, fun _ => 0⟩) =
      some ⟨fun _ => 0, fun _ => 0, fun _ => 0, fun _ => 0⟩ :=
  ⟨(C10_translateStrand_roundtrip.1 (lin "AC".toList) 1 0 9 ⟨1, 2, 3⟩
      (fun _ => ⟨0, 0, 0⟩) [1, 0] (by decide)).2,
   C10_translateStrand_roundtrip.2
      [{ n3 := none, n5 := some 1, type := 'A', strand := 0, sid := 0 },
       { n3 := some 0, n5 := none, type := 'B', strand := 0, sid := 1 }]
      0 1 9 ⟨1, 2, 3⟩ ⟨fun _ => 0, fun _ => 0, fun _ => 0, fun _ => 0⟩
      (pepLoop ⟨1, 2, 3⟩ 3 2 0 ⟨fun _ => 0, fun _ => 0, fun _ => 0, fun _ => 0⟩)
      rfl⟩

/-! ### Output characterization of the extendStrand loop (claim C2) -/

section ExtLemmas

variable {α : Type} [LinearOrderedField α] [DecidableEq α] (O : SOps α)
variable (p a1 a3 : Vec3 α) (n5d double : Bool) (len : Nat)

theorem extLoop_untouched :
    ∀ (k i : Nat) (st : (Vec3 α × Vec3 α) × (Nat → Option (Frame α))) (j : Nat),
      (∀ m, i ≤ m → m < i + k →
        j ≠ m ∧ (double = true → j ≠ len * 2 - (m+1))) →
      (extLoop O p a1 a3 n5d double len k i st).2 j = st.2 j := by
  intro k
  induction k with
  | zero => intro i st j _; rfl
  | succ k ih =>
    intro i st j hcond
    rw [extLoop]
    rw [ih (i+1) _ j (fun m hm1 hm2 => hcond m (by omega) (by omega))]
    obtain ⟨hj1, hj2⟩ := hcond i (Nat.le_refl i) (by omega)
    by_cases hd : double = true
    · have hc := hj2 hd
      simp [extStep, setSlot, hd, hj1, hc]
    · have hd2 : double = false := by
        cases double
        · rfl
        · exact absurd rfl hd
      simp [extStep, setSlot, hd2, hj1]

theorem extLoop_prim :
    ∀ (k i : Nat) (out0 : Nat → Option (Frame α)) (m : Nat),
      i ≤ m → m < i + k → i + k ≤ len →
      (extLoop O p a1 a3 n5d double len k i
        (extRR O a1 a3 n5d i, out0)).2 m =
        some (extPrimOf O p a1 a3 n5d (extRR O a1 a3 n5d (m+1))) := by
  intro k
  induction k with
  | zero => intro i out0 m h1 h2 h3; omega
  | succ k ih =>
    intro i out0 m h1 h2 h3
    rw [extLoop]
    by_cases hm : m = i
    · subst hm
      rw [show extStep O p a1 a3 n5d double len m (extRR O a1 a3 n5d m, out0) =
        (extRR O a1 a3 n5d (m+1),
          (extStep O p a1 a3 n5d double len m (extRR O a1 a3 n5d m, out0)).2)
        from rfl]
      rw [extLoop_untouched O p a1 a3 n5d double len k (m+1) _ m
        (fun m2 hm1 hm2 => ⟨by omega, fun _ => by omega⟩)]
      by_cases hd : double = true
      · have hne : ¬ (m = len * 2 - (m+1)) := by omega
        simp [extStep, setSlot, hd, hne]
        rfl
      · have hd2 : double = false := by
          cases double
          · rfl
          · exact absurd rfl hd
        simp [extStep, setSlot, hd2]
        rfl
    · rw [show extStep O p a1 a3 n5d double len i (extRR O a1 a3 n5d i, out0) =
        (extRR O a1 a3 n5d (i+1),
          (extStep O p a1 a3 n5d double len i (extRR O a1 a3 n5d i, out0)).2)
        from rfl]
      exact ih (i+1) _ m (by omega) (by omega) (by omega)

theorem extLoop_comp :
    ∀ (k i : Nat) (out0 : Nat → Option (Frame α)) (m : Nat),
      i ≤ m → m < i + k → i + k ≤ len → double = true →
      (extLoop O p a1 a3 n5d double len k i
        (extRR O a1 a3 n5d i, out0)).2 (len * 2 - (m+1)) =
        some (extCompOf O p a1 a3 n5d (extRR O a1 a3 n5d (m+1))) := by
  intro k
  induction k with
  | zero => intro i out0 m h1 h2 h3 hd; omega
  | succ k ih =>
    intro i out0 m h1 h2 h3 hd
    rw [extLoop]
    by_cases hm : m = i
    · subst hm
      rw [show extStep O p a1 a3 n5d double len m (extRR O a1 a3 n5d m, out0) =
        (extRR O a1 a3 n5d (m+1),
          (extStep O p a1 a3 n5d double len m (extRR O a1 a3 n5d m, out0)).2)
        from rfl]
      rw [extLoop_untouched O p a1 a3 n5d double len k (m+1) _ (len * 2 - (m+1))
        (fun m2 hm1 hm2 => ⟨by omega, fun _ => by omega⟩)]
      simp [extStep, setSlot, hd]
      rfl
    · rw [show extStep O p a1 a3 n5d double len i (extRR O a1 a3 n5d i, out0) =
        (extRR O a1 a3 n5d (i+1),
          (extStep O p a1 a3 n5d double len i (extRR O a1 a3 n5d i, out0)).2)
        from rfl]
      exact ih (i+1) _ m (by omega) (by omega) (by omega) hd

theorem extendStrand_prim (m : Nat) (hm : m < len) :
    extendStrand O p a1 a3 len n5d double m =
      some (extPrimOf O p a1 a3 n5d (extRR O a1 a3 n5d (m+1))) := by
  unfold extendStrand
  exact extLoop_prim O p a1 a3 n5d double len len 0 (fun _ => none) m
    (Nat.zero_le m) (by omega) (by omega)

theorem extendStrand_comp (m : Nat) (hm : m < len) :
    extendStrand O p a1 a3 len n5d true (len * 2 - (m+1)) =
      some (extCompOf O p a1 a3 n5d (extRR O a1 a3 n5d (m+1))) := by
  unfold extendStrand
  exact extLoop_comp O p a1 a3 n5d true len len 0 (fun _ => none) m
    (Nat.zero_le m) (by omega) (by omega) rfl

theorem extendStrand_none (j : Nat)
    (hj : if double then len * 2 ≤ j else len ≤ j) :
    extendStrand O p a1 a3 len n5d double j = none := by
  unfold extendStrand
  rw [extLoop_untouched O p a1 a3 n5d double len len 0 _ j ?_]
  intro m hm1 hm2
  by_cases hd : double = true
  · rw [hd] at hj
    simp only [if_true] at hj
    exact ⟨by omega, fun _ => by omega⟩
  · have hd2 : double = false := by
      cases double
      · rfl
      · exact absurd rfl hd
    rw [hd2] at hj
    simp only [Bool.false_eq_true, if_false] at hj
    exact ⟨by omega, fun hc => absurd hc hd⟩

end ExtLemmas

/-- Claim C2: from any nucleotide frame and any count, `extendStrand` with
`generateComplement = false` fills exactly the slots `0..len-1`; with
`generateComplement = true` it fills exactly the slots `0..len*2-1`, the
complementary tuple of primary index `i` sits at index `len*2 - (i+1)`, and
its base-pointing axis `a1` is the exact negation of the primary tuple's
`a1`. -/
theorem C2_extendStrand_complement {α : Type} [LinearOrderedField α]
    [DecidableEq α] (O : SOps α) (p a1 a3 : Vec3 α) (len : Nat) (n5d : Bool) :
    (∀ j, (extendStrand O p a1 a3 len n5d false j).isSome = true ↔ j < len) ∧
    (∀ j, (extendStrand O p a1 a3 len n5d true j).isSome = true ↔
      j < len * 2) ∧
    (∀ i, i < len →
      (extendStrand O p a1 a3 len n5d true (len * 2 - (i+1))).map
          (fun e => e.2.1) =
        (extendStrand O p a1 a3 len n5d true i).map
          (fun e => vscale (-1) e.2.1)) := by
  refine ⟨?_, ?_, ?_⟩
  · intro j
    constructor
    · intro h
      by_contra hc
      rw [extendStrand_none O p a1 a3 n5d false len j (by simp; omega)] at h
      cases h
    · intro h
      rw [extendStrand_prim O p a1 a3 n5d false len j h]
      rfl
  · intro j
    constructor
    · intro h
      by_contra hc
      rw [extendStrand_none O p a1 a3 n5d true len j (by simp; omega)] at h
      cases h
    · intro h
      by_cases hj : j < len
      · rw [extendStrand_prim O p a1 a3 n5d true len j hj]
        rfl
      · have hm : len * 2 - ((len * 2 - 1 - j) + 1) = j := by omega
        rw [← hm, extendStrand_comp O p a1 a3 n5d len (len * 2 - 1 - j)
          (by omega)]
        rfl
  · intro i hi
    rw [extendStrand_prim O p a1 a3 n5d true len i hi,
      extendStrand_comp O p a1 a3 n5d len i hi]
    rfl

/-- Witness for C2 over ℚ with the placeholder scalar operations, two
residues, extending toward the 3-prime side. -/
theorem C2_extendStrand_complement_witness :
    ((extendStrand ratOps ⟨0, 0, 0⟩ ⟨1, 0, 0⟩ ⟨0, 0, 1⟩ 2 false true 3).map
        (fun e => e.2.1) =
      (extendStrand ratOps ⟨0, 0, 0⟩ ⟨1, 0, 0⟩ ⟨0, 0, 1⟩ 2 false true 0).map
        (fun e => vscale (-1) e.2.1)) ∧
    ((extendStrand ratOps ⟨0, 0, 0⟩ ⟨1, 0, 0⟩ ⟨0, 0, 1⟩ 2 false false 1).isSome
        = true ↔ (1 : Nat) < 2) :=
  ⟨by
    have h := (C2_extendStrand_complement ratOps ⟨0, 0, 0⟩ ⟨1, 0, 0⟩ ⟨0, 0, 1⟩
      2 false).2.2 0 (by decide)
    simpa using h,
   (C2_extendStrand_complement ratOps ⟨0, 0, 0⟩ ⟨1, 0, 0⟩ ⟨0, 0, 1⟩
      2 false).1 1⟩

/-! ### Vector and quaternion algebra for the numerical claim (C8) -/

section QuatAlgebra

variable {α : Type} [LinearOrderedField α] [DecidableEq α]

theorem vdot_comm (a b : Vec3 α) : vdot a b = vdot b a := by
  unfold vdot
  ring

theorem vdot_vsub_left (a b c : Vec3 α) :
    vdot (vsub a b) c = vdot a c - vdot b c := by
  unfold vdot vsub
  ring

theorem vdot_vadd_left (a b c : Vec3 α) :
    vdot (vadd a b) c = vdot a c + vdot b c := by
  unfold vdot vadd
  ring

theorem vdot_vscale_left (s : α) (a b : Vec3 α) :
    vdot (vscale s a) b = s * vdot a b := by
  unfold vdot vscale
  ring

theorem vsub_vadd_vadd (x y t : Vec3 α) :
    vsub (vadd x t) (vadd y t) = vsub x y := by
  cases x
  cases y
  cases t
  simp only [vadd, vsub, Vec3.mk.injEq]
  refine ⟨by ring, by ring, by ring⟩

theorem vlengthSq_vscale (s : α) (v : Vec3 α) :
    vlengthSq (vscale s v) = s ^ 2 * vlengthSq v := by
  unfold vlengthSq vdot vscale
  ring

theorem vlengthSq_nonneg (v : Vec3 α) : 0 ≤ vlengthSq v := by
  unfold vlengthSq vdot
  nlinarith [sq_nonneg v.x, sq_nonneg v.y, sq_nonneg v.z]

theorem applyQuat_axis (a : Vec3 α) (s c : α) :
    applyQuat ⟨a.x * s, a.y * s, a.z * s, c⟩ a = a := by
  cases a
  simp only [applyQuat, Vec3.mk.injEq]
  refine ⟨by ring, by ring, by ring⟩

theorem applyQuat_vsub (q : Quat α) (u v : Vec3 α) :
    applyQuat q (vsub u v) = vsub (applyQuat q u) (applyQuat q v) := by
  cases u
  cases v
  simp only [applyQuat, vsub, Vec3.mk.injEq]
  refine ⟨by ring, by ring, by ring⟩

theorem applyQuat_vscale (q : Quat α) (s : α) (v : Vec3 α) :
    applyQuat q (vscale s v) = vscale s (applyQuat q v) := by
  cases v
  simp only [applyQuat, vscale, Vec3.mk.injEq]
  refine ⟨by ring, by ring, by ring⟩

theorem vdot_applyQuat_axis (a v : Vec3 α) (s c : α) :
    vdot (applyQuat ⟨a.x * s, a.y * s, a.z * s, c⟩ v) a = vdot v a := by
  cases a
  cases v
  simp only [applyQuat, vdot]
  ring

theorem vlengthSq_applyQuat (q : Quat α) (v : Vec3 α)
    (hq : q.w ^ 2 + q.x ^ 2 + q.y ^ 2 + q.z ^ 2 = 1) :
    vlengthSq (applyQuat q v) = vlengthSq v := by
  cases q with
  | mk qx qy qz qw =>
    cases v with
    | mk vx vy vz =>
      simp only [applyQuat, vlengthSq, vdot] at hq ⊢
      linear_combination (4 * ((qx^2 + qy^2 + qz^2) * (vx^2 + vy^2 + vz^2) -
        (qx*vx + qy*vy + qz*vz)^2)) * hq

theorem vdot_applyQuat_perp (a w : Vec3 α) (s c : α)
    (hperp : vdot a w = 0) :
    vdot (applyQuat ⟨a.x * s, a.y * s, a.z * s, c⟩ w) w =
      vlengthSq w * (1 - 2 * s ^ 2 * vlengthSq a) := by
  cases a with
  | mk ax ay az =>
    cases w with
    | mk wx wy wz =>
      simp only [applyQuat, vdot, vlengthSq] at hperp ⊢
      linear_combination (2 * s^2 * (ax*wx + ay*wy + az*wz) -
        2 * c * s * 0) * hperp

end QuatAlgebra

section ProjAlgebra

variable {α : Type} [LinearOrderedField α] [DecidableEq α]

theorem vdot_vscale_right (s : α) (a b : Vec3 α) :
    vdot a (vscale s b) = s * vdot a b := by
  unfold vdot vscale
  ring

theorem projectOnPlane_eq (x n : Vec3 α) (hn : vlengthSq n = 1) :
    projectOnPlane x n = vsub x (vscale (vdot n x) n) := by
  unfold projectOnPlane projectOnVector
  rw [if_neg (by rw [hn]; exact one_ne_zero), hn]
  rw [div_one]

theorem proj_dot_self (x n : Vec3 α) (hn : vlengthSq n = 1) :
    vdot (vsub x (vscale (vdot n x) n)) n = 0 := by
  cases x with
  | mk x1 x2 x3 =>
    cases n with
    | mk n1 n2 n3 =>
      simp only [vsub, vscale, vdot, vlengthSq] at hn ⊢
      linear_combination (-(n1*x1 + n2*x2 + n3*x3)) * hn

theorem proj_lenSq (x n : Vec3 α) (hn : vlengthSq n = 1) :
    vlengthSq (vsub x (vscale (vdot n x) n)) =
      vlengthSq x - (vdot n x) ^ 2 := by
  cases x with
  | mk x1 x2 x3 =>
    cases n with
    | mk n1 n2 n3 =>
      simp only [vsub, vscale, vdot, vlengthSq] at hn ⊢
      linear_combination ((n1*x1 + n2*x2 + n3*x3)^2) * hn

theorem proj_vscale (x n : Vec3 α) (s : α) :
    projectOnPlane (vscale s x) n = vscale s (projectOnPlane x n) := by
  unfold projectOnPlane projectOnVector
  split_ifs with h
  · cases x
    simp only [vsub, vscale, Vec3.mk.injEq]
    refine ⟨by ring, by ring, by ring⟩
  · cases x
    cases n
    simp only [vsub, vscale, vdot, Vec3.mk.injEq]
    refine ⟨by ring, by ring, by ring⟩

theorem proj_applyQuat (x n : Vec3 α) (s c : α) (hn : vlengthSq n = 1) :
    projectOnPlane (applyQuat ⟨n.x * s, n.y * s, n.z * s, c⟩ x) n =
      applyQuat ⟨n.x * s, n.y * s, n.z * s, c⟩ (projectOnPlane x n) := by
  rw [projectOnPlane_eq _ _ hn, projectOnPlane_eq _ _ hn]
  have hdot : vdot n (applyQuat ⟨n.x * s, n.y * s, n.z * s, c⟩ x) = vdot n x := by
    rw [vdot_comm, vdot_applyQuat_axis, vdot_comm]
  rw [hdot, applyQuat_vsub]
  have hscale : vscale (vdot n x) n =
      applyQuat ⟨n.x * s, n.y * s, n.z * s, c⟩ (vscale (vdot n x) n) := by
    rw [applyQuat_vscale, applyQuat_axis]
  rw [← hscale]

theorem normFactor_ne_zero (x : α) : (1 : α) / (if x = 0 then 1 else x) ≠ 0 := by
  split_ifs with h
  · simp
  · exact one_div_ne_zero h

end ProjAlgebra

/-! ### Step invariants of the generation loop -/

section ExtInvariants

variable {α : Type} [LinearOrderedField α] [DecidableEq α] (O : SOps α)
variable (a1 a3 : Vec3 α) (n5d : Bool)

theorem extStepQ_eq :
    extStepQ O a1 a3 n5d =
      ⟨(extDir O a1 a3 n5d).x * O.sin (extTwist O / 2),
       (extDir O a1 a3 n5d).y * O.sin (extTwist O / 2),
       (extDir O a1 a3 n5d).z * O.sin (extTwist O / 2),
       O.cos (extTwist O / 2)⟩ := rfl

theorem extRR_d_step (k : Nat) :
    vsub (extRR O a1 a3 n5d (k+1)).2 (extRR O a1 a3 n5d (k+1)).1 =
      applyQuat (extStepQ O a1 a3 n5d)
        (vsub (extRR O a1 a3 n5d k).2 (extRR O a1 a3 n5d k).1) := by
  rw [show extRR O a1 a3 n5d (k+1) =
    extAdvance O a1 a3 n5d (extRR O a1 a3 n5d k) from rfl]
  unfold extAdvance
  rw [vsub_vadd_vadd, applyQuat_vsub]

theorem extRR_d_dot (hu : vlengthSq (extDir O a1 a3 n5d) = 1) :
    ∀ k, vdot (vsub (extRR O a1 a3 n5d k).2 (extRR O a1 a3 n5d k).1)
        (extDir O a1 a3 n5d) =
      vdot (vsub (extRR O a1 a3 n5d 0).2 (extRR O a1 a3 n5d 0).1)
        (extDir O a1 a3 n5d) := by
  intro k
  induction k with
  | zero => rfl
  | succ k ih =>
    rw [extRR_d_step, extStepQ_eq, vdot_applyQuat_axis, ih]

theorem extRR_d_lenSq (hq : (extStepQ O a1 a3 n5d).w ^ 2 +
      (extStepQ O a1 a3 n5d).x ^ 2 + (extStepQ O a1 a3 n5d).y ^ 2 +
      (extStepQ O a1 a3 n5d).z ^ 2 = 1) :
    ∀ k, vlengthSq (vsub (extRR O a1 a3 n5d k).2 (extRR O a1 a3 n5d k).1) =
      vlengthSq (vsub (extRR O a1 a3 n5d 0).2 (extRR O a1 a3 n5d 0).1) := by
  intro k
  induction k with
  | zero => rfl
  | succ k ih =>
    rw [extRR_d_step, vlengthSq_applyQuat _ _ hq, ih]

theorem extRR_r1_dot_step (hu : vlengthSq (extDir O a1 a3 n5d) = 1) (k : Nat) :
    vdot (extRR O a1 a3 n5d (k+1)).1 (extDir O a1 a3 n5d) =
      vdot (extRR O a1 a3 n5d k).1 (extDir O a1 a3 n5d) + extRise := by
  rw [show extRR O a1 a3 n5d (k+1) =
    extAdvance O a1 a3 n5d (extRR O a1 a3 n5d k) from rfl]
  unfold extAdvance
  rw [vdot_vadd_left, vdot_vscale_left, extStepQ_eq, vdot_applyQuat_axis]
  unfold vlengthSq at hu
  rw [hu, mul_one]

theorem extRR_a1_step (hq : (extStepQ O a1 a3 n5d).w ^ 2 +
      (extStepQ O a1 a3 n5d).x ^ 2 + (extStepQ O a1 a3 n5d).y ^ 2 +
      (extStepQ O a1 a3 n5d).z ^ 2 = 1) (k : Nat) :
    vnormalize O (vsub (extRR O a1 a3 n5d (k+1)).2 (extRR O a1 a3 n5d (k+1)).1) =
      applyQuat (extStepQ O a1 a3 n5d)
        (vnormalize O
          (vsub (extRR O a1 a3 n5d k).2 (extRR O a1 a3 n5d k).1)) := by
  unfold vnormalize vlength
  rw [show vlengthSq (vsub (extRR O a1 a3 n5d (k+1)).2
      (extRR O a1 a3 n5d (k+1)).1) =
    vlengthSq (vsub (extRR O a1 a3 n5d 0).2 (extRR O a1 a3 n5d 0).1)
    from extRR_d_lenSq O a1 a3 n5d hq (k+1)]
  rw [show vlengthSq (vsub (extRR O a1 a3 n5d k).2 (extRR O a1 a3 n5d k).1) =
    vlengthSq (vsub (extRR O a1 a3 n5d 0).2 (extRR O a1 a3 n5d 0).1)
    from extRR_d_lenSq O a1 a3 n5d hq k]
  rw [extRR_d_step, applyQuat_vscale]

end ExtInvariants

/-! ### Real-number facts for the numerical claim -/

theorem realOps_sqrt : realOps.sqrt = Real.sqrt := rfl

theorem realOps_sin : realOps.sin = Real.sin := rfl

theorem realOps_cos : realOps.cos = Real.cos := rfl

theorem realOps_acos : realOps.acos = Real.arccos := rfl

theorem realOps_pi : realOps.pi = Real.pi := rfl

theorem real_vlength_eq_zero (v : Vec3 ℝ) :
    vlength realOps v = 0 ↔ vlengthSq v = 0 := by
  unfold vlength
  rw [realOps_sqrt]
  exact Real.sqrt_eq_zero (vlengthSq_nonneg v)

theorem real_vnormalize_lenSq (v : Vec3 ℝ) (hv : vlengthSq v ≠ 0) :
    vlengthSq (vnormalize realOps v) = 1 := by
  unfold vnormalize
  rw [vlengthSq_vscale,
    if_neg (fun hc => hv ((real_vlength_eq_zero v).mp hc))]
  unfold vlength
  rw [realOps_sqrt, div_pow, one_pow, Real.sq_sqrt (vlengthSq_nonneg v),
    one_div, inv_mul_cancel₀ hv]

theorem real_stepQ_norm (a1 a3 : Vec3 ℝ) (n5d : Bool)
    (hu : vlengthSq (extDir realOps a1 a3 n5d) = 1) :
    (extStepQ realOps a1 a3 n5d).w ^ 2 + (extStepQ realOps a1 a3 n5d).x ^ 2 +
      (extStepQ realOps a1 a3 n5d).y ^ 2 +
      (extStepQ realOps a1 a3 n5d).z ^ 2 = 1 := by
  rw [extStepQ_eq]
  dsimp only
  rw [realOps_sin, realOps_cos]
  have hs := Real.sin_sq_add_cos_sq (extTwist realOps / 2)
  unfold vlengthSq vdot at hu
  linear_combination (Real.sin (extTwist realOps / 2)) ^ 2 * hu + hs

theorem real_cos_half_sq (x : ℝ) :
    Real.cos x = 1 - 2 * Real.sin (x / 2) ^ 2 := by
  conv_lhs => rw [show x = 2 * (x / 2) by ring]
  rw [Real.cos_two_mul]
  have := Real.sin_sq_add_cos_sq (x / 2)
  linarith

theorem real_twist_nonneg : 0 ≤ extTwist realOps := by
  unfold extTwist
  rw [realOps_pi]
  nlinarith [Real.pi_pos]

theorem real_twist_le_pi : extTwist realOps ≤ Real.pi := by
  unfold extTwist
  rw [realOps_pi]
  nlinarith [Real.pi_pos]

theorem real_clamp_cos (x : ℝ) : clamp1 (Real.cos x) = Real.cos x := by
  unfold clamp1
  rw [min_eq_right (Real.cos_le_one x), max_eq_right (Real.neg_one_le_cos x)]

theorem extPrimOf_fst {α : Type} [LinearOrderedField α] [DecidableEq α]
    (O : SOps α) (p a1 a3 : Vec3 α) (n5d : Bool) (rr : Vec3 α × Vec3 α) :
    (extPrimOf O p a1 a3 n5d rr).1 =
      vadd (vadd rr.1 (vscale (2/5) (vnormalize O (vsub rr.2 rr.1))))
        (extStartPos O p a1 a3 n5d) := rfl

theorem extPrimOf_a1 {α : Type} [LinearOrderedField α] [DecidableEq α]
    (O : SOps α) (p a1 a3 : Vec3 α) (n5d : Bool) (rr : Vec3 α × Vec3 α) :
    (extPrimOf O p a1 a3 n5d rr).2.1 = vnormalize O (vsub rr.2 rr.1) := rfl

/-- The THREE `angleTo` between the plane projection of a vector and the
plane projection of its image under an axis-angle rotation about the plane
normal equals the rotation angle (for a unit normal, a nonzero projection
and an angle in `[0, pi]`). -/
theorem real_angle_rot (n A : Vec3 ℝ) (tw : ℝ) (hn : vlengthSq n = 1)
    (hP : vlengthSq (projectOnPlane A n) ≠ 0)
    (htw0 : 0 ≤ tw) (htwpi : tw ≤ Real.pi) :
    angleTo realOps (projectOnPlane A n)
      (projectOnPlane (applyQuat ⟨n.x * Real.sin (tw/2),
        n.y * Real.sin (tw/2), n.z * Real.sin (tw/2),
        Real.cos (tw/2)⟩ A) n) = tw := by
  rw [proj_applyQuat A n (Real.sin (tw/2)) (Real.cos (tw/2)) hn]
  have hquat : (⟨n.x * Real.sin (tw/2), n.y * Real.sin (tw/2),
      n.z * Real.sin (tw/2), Real.cos (tw/2)⟩ : Quat ℝ).w ^ 2 +
      (⟨n.x * Real.sin (tw/2), n.y * Real.sin (tw/2),
      n.z * Real.sin (tw/2), Real.cos (tw/2)⟩ : Quat ℝ).x ^ 2 +
      (⟨n.x * Real.sin (tw/2), n.y * Real.sin (tw/2),
      n.z * Real.sin (tw/2), Real.cos (tw/2)⟩ : Quat ℝ).y ^ 2 +
      (⟨n.x * Real.sin (tw/2), n.y * Real.sin (tw/2),
      n.z * Real.sin (tw/2), Real.cos (tw/2)⟩ : Quat ℝ).z ^ 2 = 1 := by
    dsimp only
    have h1 := Real.sin_sq_add_cos_sq (tw/2)
    unfold vlengthSq vdot at hn
    linear_combination (Real.sin (tw/2)) ^ 2 * hn + h1
  have hlenP2 : vlengthSq (applyQuat ⟨n.x * Real.sin (tw/2),
      n.y * Real.sin (tw/2), n.z * Real.sin (tw/2), Real.cos (tw/2)⟩
        (projectOnPlane A n)) = vlengthSq (projectOnPlane A n) :=
    vlengthSq_applyQuat _ _ hquat
  have hperp : vdot n (projectOnPlane A n) = 0 := by
    rw [projectOnPlane_eq A n hn, vdot_comm]
    exact proj_dot_self A n hn
  have hdot : vdot (projectOnPlane A n)
      (applyQuat ⟨n.x * Real.sin (tw/2), n.y * Real.sin (tw/2),
        n.z * Real.sin (tw/2), Real.cos (tw/2)⟩ (projectOnPlane A n)) =
      vlengthSq (projectOnPlane A n) *
        (1 - 2 * (Real.sin (tw/2)) ^ 2 * vlengthSq n) := by
    rw [vdot_comm]
    exact vdot_applyQuat_perp n (projectOnPlane A n) (Real.sin (tw/2))
      (Real.cos (tw/2)) hperp
  unfold angleTo
  rw [realOps_sqrt, realOps_acos, hlenP2,
    Real.sqrt_mul_self (vlengthSq_nonneg (projectOnPlane A n)),
    if_neg hP, hdot, hn, mul_one, mul_comm, mul_div_assoc, div_self hP,
    mul_one, ← real_cos_half_sq, real_clamp_cos,
    Real.arccos_cos htw0 htwpi]

/-- Claim C8: for a non-degenerate input frame (the raw helix direction and
the plane projection of the initial chord are nonzero), every pair of
consecutive generated tuples has displacement component along the computed
helix axis equal to the fixed rise `base_base_distance = 0.3287` within
1e-6, and the angle between the consecutive base-pointing axes measured
about that axis (THREE `angleTo` of the plane projections) equals the fixed
twist `32.7 * pi / 180` within 1e-6; both hold exactly in the real-number
model. -/
theorem C8_extendStrand_rise_twist (p a1 a3 : Vec3 ℝ) (len : Nat)
    (n5d : Bool) (i : Nat)
    (h1 : vlengthSq (extDirRaw realOps a1 a3 n5d) ≠ 0)
    (h2 : vlengthSq (projectOnPlane
      (vsub (extR2B realOps a1 a3 n5d) (extR1B realOps a1 a3 n5d))
      (extDir realOps a1 a3 n5d)) ≠ 0)
    (h3 : i + 1 < len) :
    ∀ e e2 : Frame ℝ,
      extendStrand realOps p a1 a3 len n5d false i = some e →
      extendStrand realOps p a1 a3 len n5d false (i+1) = some e2 →
      |vdot (vsub e2.1 e.1) (extDir realOps a1 a3 n5d) - extRise| ≤
        1/1000000 ∧
      |angleTo realOps (projectOnPlane e.2.1 (extDir realOps a1 a3 n5d))
          (projectOnPlane e2.2.1 (extDir realOps a1 a3 n5d)) -
        extTwist realOps| ≤ 1/1000000 := by
  intro e e2 he he2
  rw [extendStrand_prim realOps p a1 a3 n5d false len i (by omega)] at he
  rw [extendStrand_prim realOps p a1 a3 n5d false len (i+1) h3] at he2
  obtain rfl : extPrimOf realOps p a1 a3 n5d (extRR realOps a1 a3 n5d (i+1)) =
      e := Option.some.inj he
  obtain rfl : extPrimOf realOps p a1 a3 n5d (extRR realOps a1 a3 n5d (i+1+1)) =
      e2 := Option.some.inj he2
  have hu : vlengthSq (extDir realOps a1 a3 n5d) = 1 :=
    real_vnormalize_lenSq _ h1
  have hq := real_stepQ_norm a1 a3 n5d hu
  constructor
  · rw [extPrimOf_fst, extPrimOf_fst]
    have hstep := extRR_r1_dot_step realOps a1 a3 n5d hu (i+1)
    have ha1 : vdot (vnormalize realOps
          (vsub (extRR realOps a1 a3 n5d (i+1+1)).2
            (extRR realOps a1 a3 n5d (i+1+1)).1)) (extDir realOps a1 a3 n5d) =
        vdot (vnormalize realOps
          (vsub (extRR realOps a1 a3 n5d (i+1)).2
            (extRR realOps a1 a3 n5d (i+1)).1)) (extDir realOps a1 a3 n5d) := by
      rw [extRR_a1_step realOps a1 a3 n5d hq (i+1), extStepQ_eq,
        vdot_applyQuat_axis]
    have hmain : vdot (vsub
        (vadd (vadd (extRR realOps a1 a3 n5d (i+1+1)).1
          (vscale (2/5) (vnormalize realOps
            (vsub (extRR realOps a1 a3 n5d (i+1+1)).2
              (extRR realOps a1 a3 n5d (i+1+1)).1))))
          (extStartPos realOps p a1 a3 n5d))
        (vadd (vadd (extRR realOps a1 a3 n5d (i+1)).1
          (vscale (2/5) (vnormalize realOps
            (vsub (extRR realOps a1 a3 n5d (i+1)).2
              (extRR realOps a1 a3 n5d (i+1)).1))))
          (extStartPos realOps p a1 a3 n5d)))
        (extDir realOps a1 a3 n5d) = extRise := by
      rw [vdot_vsub_left, vdot_vadd_left, vdot_vadd_left, vdot_vadd_left,
        vdot_vadd_left, vdot_vscale_left, vdot_vscale_left, hstep, ha1]
      ring
    rw [hmain, sub_self, abs_zero]
    norm_num
  · rw [extPrimOf_a1, extPrimOf_a1,
      extRR_a1_step realOps a1 a3 n5d hq (i+1), extStepQ_eq,
      realOps_sin, realOps_cos]
    have hdproj : ∀ k, vlengthSq (projectOnPlane
        (vsub (extRR realOps a1 a3 n5d k).2 (extRR realOps a1 a3 n5d k).1)
        (extDir realOps a1 a3 n5d)) =
        vlengthSq (projectOnPlane
          (vsub (extRR realOps a1 a3 n5d 0).2 (extRR realOps a1 a3 n5d 0).1)
          (extDir realOps a1 a3 n5d)) := by
      intro k
      rw [projectOnPlane_eq _ _ hu, projectOnPlane_eq _ _ hu,
        proj_lenSq _ _ hu, proj_lenSq _ _ hu,
        extRR_d_lenSq realOps a1 a3 n5d hq k,
        vdot_comm, extRR_d_dot realOps a1 a3 n5d hu k, vdot_comm]
    have hAproj : vlengthSq (projectOnPlane (vnormalize realOps
        (vsub (extRR realOps a1 a3 n5d (i+1)).2
          (extRR realOps a1 a3 n5d (i+1)).1)) (extDir realOps a1 a3 n5d)) ≠
        0 := by
      rw [show vnormalize realOps
          (vsub (extRR realOps a1 a3 n5d (i+1)).2
            (extRR realOps a1 a3 n5d (i+1)).1) =
        vscale (1 / (if vlength realOps
            (vsub (extRR realOps a1 a3 n5d (i+1)).2
              (extRR realOps a1 a3 n5d (i+1)).1) = 0 then 1
          else vlength realOps
            (vsub (extRR realOps a1 a3 n5d (i+1)).2
              (extRR realOps a1 a3 n5d (i+1)).1)))
          (vsub (extRR realOps a1 a3 n5d (i+1)).2
            (extRR realOps a1 a3 n5d (i+1)).1) from rfl]
      rw [proj_vscale, vlengthSq_vscale, hdproj (i+1)]
      exact mul_ne_zero (pow_ne_zero 2 (normFactor_ne_zero _)) h2
    have := real_angle_rot (extDir realOps a1 a3 n5d)
      (vnormalize realOps (vsub (extRR realOps a1 a3 n5d (i+1)).2
        (extRR realOps a1 a3 n5d (i+1)).1))
      (extTwist realOps) hu hAproj real_twist_nonneg real_twist_le_pi
    rw [this, sub_self, abs_zero]
    norm_num

/-! ### A concrete non-degenerate frame for the C8 witness

The frame `a1 = (0, -cos i, sin i)`, `a3 = (0, sin i, cos i)` (with `i` the
fixed inclination) is chosen so that the computed helix axis is exactly the
z-axis and both alignment rotations are the identity, which makes the
non-degeneracy hypotheses provable in closed form. -/

theorem applyQuat_id {α : Type} [LinearOrderedField α] [DecidableEq α]
    (v : Vec3 α) : applyQuat ⟨0, 0, 0, 1⟩ v = v := by
  cases v
  simp only [applyQuat, Vec3.mk.injEq]
  refine ⟨by ring, by ring, by ring⟩

theorem vcross_self {α : Type} [LinearOrderedField α] [DecidableEq α]
    (v : Vec3 α) : vcross v v = ⟨0, 0, 0⟩ := by
  cases v
  simp only [vcross, Vec3.mk.injEq]
  refine ⟨by ring, by ring, by ring⟩

theorem vnormalize_zero : vnormalize realOps (⟨0, 0, 0⟩ : Vec3 ℝ) = ⟨0, 0, 0⟩ := by
  unfold vnormalize vscale
  simp only [Vec3.mk.injEq]
  refine ⟨by ring, by ring, by ring⟩

theorem quatAxisAngle_zero :
    quatAxisAngle realOps (⟨0, 0, 0⟩ : Vec3 ℝ) 0 = ⟨0, 0, 0, 1⟩ := by
  unfold quatAxisAngle
  rw [realOps_sin, realOps_cos]
  norm_num

theorem angleTo_self_unit (v : Vec3 ℝ) (hv : vlengthSq v = 1) :
    angleTo realOps v v = 0 := by
  unfold angleTo
  rw [realOps_sqrt, realOps_acos, hv, mul_one, Real.sqrt_one,
    if_neg one_ne_zero, show vdot v v = 1 from hv, div_one,
    show clamp1 (1 : ℝ) = 1 by
      unfold clamp1
      norm_num,
    Real.arccos_one]

theorem real_sin_double (x : ℝ) :
    Real.sin x = 2 * Real.sin (x / 2) * Real.cos (x / 2) := by
  conv_lhs => rw [show x = 2 * (x / 2) by ring]
  rw [Real.sin_two_mul]

theorem witness_dirRaw :
    extDirRaw realOps
      ⟨0, -Real.cos (extIncl realOps), Real.sin (extIncl realOps)⟩
      ⟨0, Real.sin (extIncl realOps), Real.cos (extIncl realOps)⟩ false =
      ⟨0, 0, 1⟩ := by
  have hid := Real.sin_sq_add_cos_sq (extIncl realOps)
  have hid2 := Real.sin_sq_add_cos_sq (extIncl realOps / 2)
  have hsin2 := real_sin_double (extIncl realOps)
  have hcos2 := real_cos_half_sq (extIncl realOps)
  have hcross : vcross
      (⟨0, -Real.cos (extIncl realOps), Real.sin (extIncl realOps)⟩ : Vec3 ℝ)
      ⟨0, Real.sin (extIncl realOps), Real.cos (extIncl realOps)⟩ =
      ⟨-1, 0, 0⟩ := by
    simp only [vcross, Vec3.mk.injEq]
    refine ⟨by linear_combination (-1 : ℝ) * hid, by ring, by ring⟩
  have hquat : quatAxisAngle realOps (⟨-1, 0, 0⟩ : Vec3 ℝ)
      (-(extIncl realOps)) =
      ⟨Real.sin (extIncl realOps / 2), 0, 0,
        Real.cos (extIncl realOps / 2)⟩ := by
    unfold quatAxisAngle
    rw [realOps_sin, realOps_cos,
      show -extIncl realOps / 2 = -(extIncl realOps / 2) by ring,
      Real.sin_neg, Real.cos_neg]
    simp only [Quat.mk.injEq]
    refine ⟨by ring, by ring, by ring, trivial⟩
  show applyQuat (quatAxisAngle realOps (vcross _ _) (-(extIncl realOps))) _ = _
  rw [hcross, hquat]
  simp only [Bool.false_eq_true, if_false, applyQuat, Vec3.mk.injEq]
  refine ⟨by ring, ?_, ?_⟩
  · rw [hsin2, hcos2]
    ring
  · rw [hsin2, hcos2]
    linear_combination (4 * Real.sin (extIncl realOps / 2) ^ 2) * hid2

theorem witness_dir :
    extDir realOps
      ⟨0, -Real.cos (extIncl realOps), Real.sin (extIncl realOps)⟩
      ⟨0, Real.sin (extIncl realOps), Real.cos (extIncl realOps)⟩ false =
      ⟨0, 0, 1⟩ := by
  unfold extDir
  rw [witness_dirRaw]
  unfold vnormalize vlength
  rw [realOps_sqrt, show vlengthSq (⟨0, 0, 1⟩ : Vec3 ℝ) = 1 by
      unfold vlengthSq vdot
      norm_num,
    Real.sqrt_one, if_neg one_ne_zero]
  unfold vscale
  simp only [Vec3.mk.injEq]
  refine ⟨by ring, by ring, by ring⟩

theorem witness_Q1 :
    extQ1 realOps
      ⟨0, -Real.cos (extIncl realOps), Real.sin (extIncl realOps)⟩
      ⟨0, Real.sin (extIncl realOps), Real.cos (extIncl realOps)⟩ false =
      ⟨0, 0, 0, 1⟩ := by
  unfold extQ1
  rw [witness_dir, vcross_self, vnormalize_zero,
    angleTo_self_unit _ (by
      unfold vlengthSq vdot
      norm_num),
    quatAxisAngle_zero]

theorem witness_sub :
    vsub (extR2T realOps) (extR1T realOps) =
      ⟨0, -(2 * Real.cos (extIncl realOps)),
        2 * Real.sin (extIncl realOps)⟩ := by
  unfold extR2T extR1T extCord extBpDist vsub
  rw [realOps_sin, realOps_cos]
  simp only [Vec3.mk.injEq]
  refine ⟨by ring, by ring, by ring⟩

theorem witness_chord :
    extChordHat realOps
      ⟨0, -Real.cos (extIncl realOps), Real.sin (extIncl realOps)⟩
      ⟨0, Real.sin (extIncl realOps), Real.cos (extIncl realOps)⟩ false =
      ⟨0, -Real.cos (extIncl realOps), Real.sin (extIncl realOps)⟩ := by
  have hid := Real.sin_sq_add_cos_sq (extIncl realOps)
  unfold extChordHat extR2A extR1A
  rw [witness_Q1, applyQuat_id, applyQuat_id, witness_sub]
  unfold vnormalize vlength
  rw [realOps_sqrt, show vlengthSq (⟨0, -(2 * Real.cos (extIncl realOps)),
      2 * Real.sin (extIncl realOps)⟩ : Vec3 ℝ) = 4 by
      unfold vlengthSq vdot
      linear_combination (4 : ℝ) * hid,
    show Real.sqrt 4 = 2 by
      rw [show (4 : ℝ) = 2 ^ 2 by norm_num,
        Real.sqrt_sq (by norm_num : (0:ℝ) ≤ 2)],
    if_neg (by norm_num : (2 : ℝ) ≠ 0)]
  unfold vscale
  simp only [Vec3.mk.injEq]
  refine ⟨by ring, by ring, by ring⟩

theorem witness_Q2 :
    extQ2 realOps
      ⟨0, -Real.cos (extIncl realOps), Real.sin (extIncl realOps)⟩
      ⟨0, Real.sin (extIncl realOps), Real.cos (extIncl realOps)⟩ false =
      ⟨0, 0, 0, 1⟩ := by
  have hid := Real.sin_sq_add_cos_sq (extIncl realOps)
  unfold extQ2
  rw [witness_chord, vcross_self, vnormalize_zero,
    angleTo_self_unit _ (by
      unfold vlengthSq vdot
      linear_combination hid),
    quatAxisAngle_zero]

theorem witness_R1B :
    extR1B realOps
      ⟨0, -Real.cos (extIncl realOps), Real.sin (extIncl realOps)⟩
      ⟨0, Real.sin (extIncl realOps), Real.cos (extIncl realOps)⟩ false =
      extR1T realOps := by
  unfold extR1B extR1A
  rw [witness_Q2, witness_Q1, applyQuat_id, applyQuat_id]

theorem witness_R2B :
    extR2B realOps
      ⟨0, -Real.cos (extIncl realOps), Real.sin (extIncl realOps)⟩
      ⟨0, Real.sin (extIncl realOps), Real.cos (extIncl realOps)⟩ false =
      extR2T realOps := by
  unfold extR2B extR2A
  rw [witness_Q2, witness_Q1, applyQuat_id, applyQuat_id]

theorem witness_incl_cos_pos : 0 < Real.cos (extIncl realOps) := by
  apply Real.cos_pos_of_mem_Ioo
  rw [Set.mem_Ioo]
  constructor
  · unfold extIncl
    rw [realOps_pi]
    nlinarith [Real.pi_pos]
  · unfold extIncl
    rw [realOps_pi]
    nlinarith [Real.pi_pos]

theorem witness_proj :
    vlengthSq (projectOnPlane
      (vsub (extR2B realOps
        ⟨0, -Real.cos (extIncl realOps), Real.sin (extIncl realOps)⟩
        ⟨0, Real.sin (extIncl realOps), Real.cos (extIncl realOps)⟩ false)
      (extR1B realOps
        ⟨0, -Real.cos (extIncl realOps), Real.sin (extIncl realOps)⟩
        ⟨0, Real.sin (extIncl realOps), Real.cos (extIncl realOps)⟩ false))
      (extDir realOps
        ⟨0, -Real.cos (extIncl realOps), Real.sin (extIncl realOps)⟩
        ⟨0, Real.sin (extIncl realOps), Real.cos (extIncl realOps)⟩ false)) ≠
      0 := by
  rw [witness_R1B, witness_R2B, witness_dir, witness_sub,
    projectOnPlane_eq _ _ (by
      unfold vlengthSq vdot
      norm_num),
    show vdot (⟨0, 0, 1⟩ : Vec3 ℝ)
        ⟨0, -(2 * Real.cos (extIncl realOps)),
          2 * Real.sin (extIncl realOps)⟩ =
      2 * Real.sin (extIncl realOps) by
      unfold vdot
      ring,
    show vsub (⟨0, -(2 * Real.cos (extIncl realOps)),
        2 * Real.sin (extIncl realOps)⟩ : Vec3 ℝ)
        (vscale (2 * Real.sin (extIncl realOps)) ⟨0, 0, 1⟩) =
      ⟨0, -(2 * Real.cos (extIncl realOps)), 0⟩ by
      unfold vsub vscale
      simp only [Vec3.mk.injEq]
      refine ⟨by ring, by ring, by ring⟩]
  unfold vlengthSq vdot
  intro hc
  dsimp only at hc
  nlinarith [witness_incl_cos_pos]

/-- Witness for C8 at the concrete frame whose helix axis is the z-axis,
two generated residues, consecutive pair at indices 0 and 1. -/
theorem C8_extendStrand_rise_twist_witness :
    vlengthSq (extDirRaw realOps
      ⟨0, -Real.cos (extIncl realOps), Real.sin (extIncl realOps)⟩
      ⟨0, Real.sin (extIncl realOps), Real.cos (extIncl realOps)⟩ false) ≠ 0 ∧
    vlengthSq (projectOnPlane
      (vsub (extR2B realOps
        ⟨0, -Real.cos (extIncl realOps), Real.sin (extIncl realOps)⟩
        ⟨0, Real.sin (extIncl realOps), Real.cos (extIncl realOps)⟩ false)
      (extR1B realOps
        ⟨0, -Real.cos (extIncl realOps), Real.sin (extIncl realOps)⟩
        ⟨0, Real.sin (extIncl realOps), Real.cos (extIncl realOps)⟩ false))
      (extDir realOps
        ⟨0, -Real.cos (extIncl realOps), Real.sin (extIncl realOps)⟩
        ⟨0, Real.sin (extIncl realOps), Real.cos (extIncl realOps)⟩ false)) ≠
      0 ∧
    0 + 1 < 2 ∧
    (|vdot (vsub (extPrimOf realOps ⟨0, 0, 0⟩
        ⟨0, -Real.cos (extIncl realOps), Real.sin (extIncl realOps)⟩
        ⟨0, Real.sin (extIncl realOps), Real.cos (extIncl realOps)⟩ false
        (extRR realOps
          ⟨0, -Real.cos (extIncl realOps), Real.sin (extIncl realOps)⟩
          ⟨0, Real.sin (extIncl realOps), Real.cos (extIncl realOps)⟩ false
          (0+1+1))).1
      (extPrimOf realOps ⟨0, 0, 0⟩
        ⟨0, -Real.cos (extIncl realOps), Real.sin (extIncl realOps)⟩
        ⟨0, Real.sin (extIncl realOps), Real.cos (extIncl realOps)⟩ false
        (extRR realOps
          ⟨0, -Real.cos (extIncl realOps), Real.sin (extIncl realOps)⟩
          ⟨0, Real.sin (extIncl realOps), Real.cos (extIncl realOps)⟩ false
          (0+1))).1)
      (extDir realOps
        ⟨0, -Real.cos (extIncl realOps), Real.sin (extIncl realOps)⟩
        ⟨0, Real.sin (extIncl realOps), Real.cos (extIncl realOps)⟩ false) -
      extRise| ≤ 1/1000000 ∧
    |angleTo realOps
      (projectOnPlane (extPrimOf realOps ⟨0, 0, 0⟩
        ⟨0, -Real.cos (extIncl realOps), Real.sin (extIncl realOps)⟩
        ⟨0, Real.sin (extIncl realOps), Real.cos (extIncl realOps)⟩ false
        (extRR realOps
          ⟨0, -Real.cos (extIncl realOps), Real.sin (extIncl realOps)⟩
          ⟨0, Real.sin (extIncl realOps), Real.cos (extIncl realOps)⟩ false
          (0+1))).2.1
        (extDir realOps
          ⟨0, -Real.cos (extIncl realOps), Real.sin (extIncl realOps)⟩
          ⟨0, Real.sin (extIncl realOps), Real.cos (extIncl realOps)⟩ false))
      (projectOnPlane (extPrimOf realOps ⟨0, 0, 0⟩
        ⟨0, -Real.cos (extIncl realOps), Real.sin (extIncl realOps)⟩
        ⟨0, Real.sin (extIncl realOps), Real.cos (extIncl realOps)⟩ false
        (extRR realOps
          ⟨0, -Real.cos (extIncl realOps), Real.sin (extIncl realOps)⟩
          ⟨0, Real.sin (extIncl realOps), Real.cos (extIncl realOps)⟩ false
          (0+1+1))).2.1
        (extDir realOps
          ⟨0, -Real.cos (extIncl realOps), Real.sin (extIncl realOps)⟩
          ⟨0, Real.sin (extIncl realOps), Real.cos (extIncl realOps)⟩ false)) -
      extTwist realOps| ≤ 1/1000000) := by
  have hW1 : vlengthSq (extDirRaw realOps
      ⟨0, -Real.cos (extIncl realOps), Real.sin (extIncl realOps)⟩
      ⟨0, Real.sin (extIncl realOps), Real.cos (extIncl realOps)⟩ false) ≠
      0 := by
    rw [witness_dirRaw]
    unfold vlengthSq vdot
    norm_num
  refine ⟨hW1, witness_proj, by norm_num, ?_⟩
  exact C8_extendStrand_rise_twist ⟨0, 0, 0⟩
    ⟨0, -Real.cos (extIncl realOps), Real.sin (extIncl realOps)⟩
    ⟨0, Real.sin (extIncl realOps), Real.cos (extIncl realOps)⟩ 2 false 0
    hW1 witness_proj (by norm_num) _ _
    (extendStrand_prim realOps ⟨0, 0, 0⟩
      ⟨0, -Real.cos (extIncl realOps), Real.sin (extIncl realOps)⟩
      ⟨0, Real.sin (extIncl realOps), Real.cos (extIncl realOps)⟩ false false
      2 0 (by norm_num))
    (extendStrand_prim realOps ⟨0, 0, 0⟩
      ⟨0, -Real.cos (extIncl realOps), Real.sin (extIncl realOps)⟩
      ⟨0, Real.sin (extIncl realOps), Real.cos (extIncl realOps)⟩ false false
      2 (0+1) (by norm_num))
